import Mathlib

/-!
A shallow embedding of the schema/serialization engine and adapter layer of
the `data-table-filters` repository (the BYOS core), together with proofs of
the specification claims about it.

Conventions of the embedding:
* JavaScript runtime values flowing through the filter state are modelled by
  the inductive type `Value`; JS `null` is `Value.null`, a JS object of the
  shape produced by the sort codec is `Value.sortVal`, a `Date` is
  `Value.date` carrying its epoch-milliseconds.  JS `undefined` is modelled
  by absence from an association list (`Option.none` on lookup).
* JS numbers are modelled as arbitrary-precision `Int`.  The source works
  with IEEE doubles; within the integral range where doubles are exact (and
  print in plain decimal) the model is faithful, and no claim depends on the
  behaviour outside it.
* A function that can throw is modelled in `Except Unit`; `.error ()` is a
  thrown exception.  Built-in codecs are total except where the source
  genuinely throws (`value.getTime()` on a non-`Date`).
* Objects are insertion-ordered association lists; updating an existing key
  rewrites it in place, a new key is appended — the JS object semantics.
* Recursions over strings and digit sequences are written with an explicit
  fuel argument (always instantiated generously enough) so that every
  definition evaluates by kernel reduction on concrete input.
-/

/-- A JavaScript runtime value as it appears in filter state. -/
inductive Value where
  | null : Value
  | str (s : String) : Value
  | num (n : Int) : Value
  | bool (b : Bool) : Value
  | date (ms : Int) : Value
  | arr (items : List Value) : Value
  | sortVal (id : String) (desc : Bool) : Value

/-- JS `v === null`. -/
def Value.isNull : Value → Bool
  | .null => true
  | _ => false

/-! ### Decimal printing and parsing of integers (JS `String(n)` / `parseInt(s, 10)`) -/

/-- The character for a decimal digit `d < 10`. -/
def digitChar (d : Nat) : Char := Char.ofNat (48 + d)

/-- Numeric value of a decimal digit character. -/
def digitVal (c : Char) : Nat := c.toNat - 48

/-- Fuel-driven most-significant-first decimal digit expansion. -/
def natToCharsGo : Nat → Nat → List Char → List Char
  | 0, _, acc => acc
  | fuel + 1, n, acc =>
    if n < 10 then digitChar n :: acc
    else natToCharsGo fuel (n / 10) (digitChar (n % 10) :: acc)

/-- Decimal digit characters of a natural number, most significant first. -/
def natToChars (n : Nat) : List Char := natToCharsGo (n + 1) n []

/-- Decimal character form of an integer: JS `String(n)` for an integral
number in the plain-decimal range. -/
def intToChars (n : Int) : List Char :=
  if n < 0 then '-' :: natToChars n.natAbs else natToChars n.natAbs

/-- JS `String(n)` for an integral number. -/
def intToString (n : Int) : String := String.mk (intToChars n)

/-- Value of a list of decimal digit characters, most significant first. -/
def decDigitsVal (cs : List Char) : Nat :=
  cs.foldl (fun acc c => acc * 10 + digitVal c) 0

/-- JS `parseInt(s, 10)`: skip leading whitespace, read one optional sign,
then the longest prefix of decimal digits; `none` is `NaN` (no digits). -/
def jsParseInt (s : String) : Option Int :=
  let cs := s.data.dropWhile Char.isWhitespace
  let body : List Char :=
    if cs.head? = some '-' ∨ cs.head? = some '+' then cs.tail else cs
  let ds := body.takeWhile Char.isDigit
  if ds = [] then none
  else
    let v : Int := Int.ofNat (decDigitsVal ds)
    some (if cs.head? = some '-' then -v else v)

/-! ### JS `String.prototype.split` and `Array.prototype.join` -/

/-- Fuel-driven leftmost-first split of a character list on a nonempty
separator `sc :: sr`, the semantics of JS `split` with a nonempty separator
string.  Any fuel of at least the list length yields the true split. -/
def splitSeqGo (sc : Char) (sr : List Char) : Nat → List Char → List (List Char)
  | _, [] => [[]]
  | 0, l => [l]
  | fuel + 1, c :: cs =>
    if List.isPrefixOf (sc :: sr) (c :: cs) then
      [] :: splitSeqGo sc sr fuel (cs.drop sr.length)
    else
      match splitSeqGo sc sr fuel cs with
      | [] => [[c]]
      | t :: ts => (c :: t) :: ts

/-- JS `s.split(sep)`: an empty separator splits into single characters,
otherwise leftmost-first splitting on the separator string. -/
def jsSplit (s sep : String) : List String :=
  match sep.data with
  | [] => s.data.map (fun c => String.mk [c])
  | c :: rest => (splitSeqGo c rest s.data.length s.data).map String.mk

/-- JS `parts.join(sep)`. -/
def jsJoin (sep : String) (parts : List String) : String :=
  String.mk (List.intercalate sep.data (parts.map String.data))

/-! ### JS `String(v)` coercion -/

mutual
/-- Array-nesting depth of a value, used only as recursion fuel for the JS
string coercion. -/
def Value.depth : Value → Nat
  | .arr items => 1 + Value.depthList items
  | _ => 1

/-- Maximal depth of a list of values. -/
def Value.depthList : List Value → Nat
  | [] => 0
  | v :: vs => max v.depth (Value.depthList vs)
end

/-- Fuel-driven character form of JS `String(v)`.  Inside an array, `null`
elements print as the empty string (`Array.prototype.toString`).  The `Date`
branch stands in for JS's locale/timezone dependent `Date#toString`; no
proved claim depends on its exact text.  Fuel at least the nesting depth
yields the true coercion. -/
def jsToStringGo (fuel : Nat) : Value → List Char
  | .null => ['n', 'u', 'l', 'l']
  | .str s => s.data
  | .num n => intToChars n
  | .bool b => if b then ['t', 'r', 'u', 'e'] else ['f', 'a', 'l', 's', 'e']
  | .date ms => '@' :: intToChars ms
  | .arr items =>
    match fuel with
    | fuel' + 1 =>
      List.intercalate [','] (items.map fun v =>
        match v with
        | .null => []
        | w => jsToStringGo fuel' w)
    | 0 => []
  | .sortVal _ _ => "[object Object]".data

/-- JS `String(v)`. -/
def jsToString (v : Value) : String := String.mk (jsToStringGo v.depth v)

/-! ### Sanity examples (concrete evaluations of the JS primitives) -/

example : intToString 123 = "123" := by decide
example : intToString (-45) = "-45" := by decide
example : intToString 0 = "0" := by decide
example : jsParseInt "123" = some 123 := by decide
example : jsParseInt "-45" = some (-45) := by decide
example : jsParseInt "12abc" = some 12 := by decide
example : jsParseInt "abc" = none := by decide
example : jsParseInt "" = none := by decide
example : jsSplit "ams,,gru" "," = ["ams", "", "gru"] := by decide
example : jsSplit "" "," = [""] := by decide
example : jsJoin "," ["a", "b"] = "a,b" := by decide
example : jsToString (.str "ams") = "ams" := rfl
example : jsToString (.num 12) = "12" := by decide

/-! ### Delimiter constants

The repository's `src/lib/delimiters.ts` is not among the provided sources;
the values below are modelled from the spec. -/

/-- Modelled from the spec: the generic array delimiter (the end-to-end
scenario encodes `level=error,warn`, i.e. a comma); `src/lib/delimiters.ts`
is missing from the sources. -/
def ARRAY_DELIMITER : String := ","

/-- Modelled from the spec: the numeric-range (slider) delimiter, distinct
from the generic array comma and matching the range syntax of spec §4.1;
`src/lib/delimiters.ts` is missing from the sources. -/
def SLIDER_DELIMITER : String := "-"

/-- Modelled from the spec: the sort-descriptor delimiter (the spec's
example serializes `(id latency, desc true)` to `"latency.desc"`, i.e. a
dot); `src/lib/delimiters.ts` is missing from the sources. -/
def SORT_DELIMITER : String := "."

/-! ### Field configs and builders (`schema/field.ts`, `schema/types.ts`) -/

/-- The `type` tag of a `FieldConfig`. -/
inductive FieldType where
  | string | number | boolean | timestamp | stringLiteral | array | sort
deriving DecidableEq

/-- `FieldConfig<T>` of `schema/types.ts`: the serialize/parse pair with its
default value, delimiter, optional literal set and optional item config.
An inductive rather than a structure because `itemConfig` nests. -/
inductive FieldConfig where
  | mk
    (type : FieldType)
    (defaultValue : Value)
    (delimiter : String)
    (serialize : Value → Except Unit String)
    (parse : String → Except Unit Value)
    (literals : List String)
    (itemConfig : Option FieldConfig)

/-- The `type` tag. -/
def FieldConfig.type : FieldConfig → FieldType
  | .mk t _ _ _ _ _ _ => t

/-- The `defaultValue` attribute. -/
def FieldConfig.defaultValue : FieldConfig → Value
  | .mk _ d _ _ _ _ _ => d

/-- The `delimiter` attribute. -/
def FieldConfig.delimiter : FieldConfig → String
  | .mk _ _ dl _ _ _ _ => dl

/-- The `serialize` function (throwing modelled in `Except`). -/
def FieldConfig.serialize : FieldConfig → (Value → Except Unit String)
  | .mk _ _ _ s _ _ _ => s

/-- The `parse` function (throwing modelled in `Except`). -/
def FieldConfig.parse : FieldConfig → (String → Except Unit Value)
  | .mk _ _ _ _ p _ _ => p

/-- The `literals` attribute (empty when absent). -/
def FieldConfig.literals : FieldConfig → List String
  | .mk _ _ _ _ _ l _ => l

/-- The `itemConfig` attribute. -/
def FieldConfig.itemConfig : FieldConfig → Option FieldConfig
  | .mk _ _ _ _ _ _ ic => ic

/-- `FieldBuilder<T>`: a fluent wrapper around a `FieldConfig`. -/
structure FieldBuilder where
  _config : FieldConfig

/-- Builder modifier `.default(value)`: copies the config with a new default
value; the serialize/parse closures are untouched. -/
def FieldBuilder.default (b : FieldBuilder) (value : Value) : FieldBuilder :=
  match b._config with
  | .mk t _ dl s p lits ic => ⟨.mk t value dl s p lits ic⟩

/-- Builder modifier `.delimiter(separator)`: for an array config with an
item config it regenerates the serialize/parse closures so they capture the
new separator (and the old default value, which the regenerated parse
returns for the empty string); otherwise it only records the separator. -/
def FieldBuilder.delimiter (b : FieldBuilder) (separator : String) : FieldBuilder :=
  match b._config with
  | .mk t dv _ ser par lits ic =>
    if t = FieldType.array then
      match ic with
      | some itemCfg =>
        ⟨.mk t dv separator
          (fun value =>
            match value with
            | .arr items => do
              let outs ← items.mapM itemCfg.serialize
              .ok (jsJoin separator outs)
            | _ => .ok "")
          (fun str =>
            if str = "" then .ok dv
            else do
              let vs ← (jsSplit str separator).mapM itemCfg.parse
              .ok (.arr (vs.filter (fun v => !v.isNull))))
          lits ic⟩
      | none => ⟨.mk t dv separator ser par lits ic⟩
    else ⟨.mk t dv separator ser par lits ic⟩

/-- Builder modifier `.serialize(fn)`: replaces the serialize function. -/
def FieldBuilder.serialize (b : FieldBuilder) (fn : Value → Except Unit String) : FieldBuilder :=
  match b._config with
  | .mk t dv dl _ p lits ic => ⟨.mk t dv dl fn p lits ic⟩

/-- Builder modifier `.parse(fn)`: replaces the parse function. -/
def FieldBuilder.parse (b : FieldBuilder) (fn : String → Except Unit Value) : FieldBuilder :=
  match b._config with
  | .mk t dv dl s _ lits ic => ⟨.mk t dv dl s fn lits ic⟩

namespace field

/-- `field.string()`: identity serialize via `String(value)`, the empty
string parses to `null`. -/
def string : FieldBuilder :=
  ⟨.mk .string .null ""
    (fun value => .ok (if value.isNull then "" else jsToString value))
    (fun str => .ok (if str = "" then .null else .str str))
    [] none⟩

/-- `field.number()`: decimal serialize, `parseInt(str, 10)` parse with
`NaN` (and the empty string) mapping to `null`. -/
def number : FieldBuilder :=
  ⟨.mk .number .null ""
    (fun value => .ok (if value.isNull then "" else jsToString value))
    (fun str => .ok (
      if str = "" then .null
      else
        match jsParseInt str with
        | none => .null
        | some n => .num n))
    [] none⟩

/-- `field.boolean()`: only the literals `"true"` and `"false"` parse. -/
def boolean : FieldBuilder :=
  ⟨.mk .boolean .null ""
    (fun value => .ok (if value.isNull then "" else jsToString value))
    (fun str => .ok (
      if str = "" then .null
      else if str = "true" then .bool true
      else if str = "false" then .bool false
      else .null))
    [] none⟩

/-- Maximal epoch-milliseconds magnitude of a valid JS `Date`. -/
def MAX_DATE_MS : Nat := 8640000000000000

/-- `field.timestamp()`: serialize is `String(value.getTime())`, which
throws a `TypeError` when the value is neither `null` nor a `Date`; parse
is `parseInt` followed by the `new Date(time)` validity check. -/
def timestamp : FieldBuilder :=
  ⟨.mk .timestamp .null ""
    (fun value =>
      match value with
      | .null => .ok ""
      | .date ms => .ok (intToString ms)
      | _ => .error ())
    (fun str => .ok (
      if str = "" then .null
      else
        match jsParseInt str with
        | none => .null
        | some t => if t.natAbs ≤ MAX_DATE_MS then .date t else .null))
    [] none⟩

/-- `field.stringLiteral(literals)`: parse checks membership in the allowed
literal list. -/
def stringLiteral (literals : List String) : FieldBuilder :=
  ⟨.mk .stringLiteral .null ""
    (fun value => .ok (if value.isNull then "" else jsToString value))
    (fun str => .ok (
      if str = "" then .null
      else if literals.contains str then .str str else .null))
    literals none⟩

/-- `field.array(itemBuilder)`: default delimiter depends on the item type;
serialize joins item serializations (empty string for a non-array or empty
value), parse splits, parses each token with the item codec and drops the
tokens whose item-parse yields `null`. -/
def array (itemBuilder : FieldBuilder) : FieldBuilder :=
  let itemCfg := itemBuilder._config
  let defaultDelimiter :=
    if itemCfg.type = FieldType.number then SLIDER_DELIMITER else ARRAY_DELIMITER
  ⟨.mk .array (.arr []) defaultDelimiter
    (fun value =>
      match value with
      | .arr items =>
        if items.isEmpty then .ok ""
        else do
          let outs ← items.mapM itemCfg.serialize
          .ok (jsJoin defaultDelimiter outs)
      | _ => .ok "")
    (fun str =>
      if str = "" then .ok (.arr [])
      else do
        let vs ← (jsSplit str defaultDelimiter).mapM itemCfg.parse
        .ok (.arr (vs.filter (fun v => !v.isNull))))
    [] (some itemCfg)⟩

/-- `field.sort()`: serializes a descriptor as `id`, the sort delimiter,
then `"desc"`/`"asc"`.  On a non-`null` non-descriptor value the JS property
reads `value.id`/`value.desc` yield `undefined`, so the template literal
produces `"undefined" + delimiter + "asc"`.  Parse takes the first two
split segments; an empty id segment yields `null`. -/
def sort : FieldBuilder :=
  ⟨.mk .sort .null SORT_DELIMITER
    (fun value =>
      match value with
      | .null => .ok ""
      | .sortVal id desc =>
        .ok (id ++ SORT_DELIMITER ++ (if desc then "desc" else "asc"))
      | _ => .ok ("undefined" ++ SORT_DELIMITER ++ "asc"))
    (fun str => .ok (
      if str = "" then .null
      else
        let parts := jsSplit str SORT_DELIMITER
        let id := parts.headD ""
        let descTok := parts[1]?
        if id = "" then .null
        else .sortVal id (descTok == some "desc")))
    [] none⟩

end field

/-! ### Sanity examples for the field codecs -/

example : (field.string)._config.parse "ams" = .ok (.str "ams") := rfl
example : (field.string)._config.serialize (.str "ams") = .ok "ams" := rfl
example : (field.number)._config.parse "42" = .ok (.num 42) := rfl
example : (field.number)._config.parse "x" = .ok .null := rfl
example : (field.boolean)._config.parse "true" = .ok (.bool true) := rfl
example : (field.sort)._config.serialize (.sortVal "latency" true) = .ok "latency.desc" := rfl
example : (field.sort)._config.parse "latency.desc" = .ok (.sortVal "latency" true) := rfl
example :
    (field.array field.string)._config.parse "ams,,gru"
      = .ok (.arr [.str "ams", .str "gru"]) := rfl
example :
    ((field.array field.string).delimiter ",")._config.parse "ams,,gru"
      = .ok (.arr [.str "ams", .str "gru"]) := rfl
example :
    (field.array field.number)._config.parse "0-5000"
      = .ok (.arr [.num 0, .num 5000]) := rfl

/-! ### JS objects as insertion-ordered association lists -/

/-- JS property write `o[k] = v` (and the effect of spreading `o` and then
`k: v`): an existing key is rewritten in place, a new key is appended. -/
def setEntry {β : Type} : List (String × β) → String → β → List (String × β)
  | [], k, v => [(k, v)]
  | (k', v') :: rest, k, v =>
    if k' = k then (k, v) :: rest else (k', v') :: setEntry rest k v

/-- JS property read `o[k]`: `none` is `undefined`. -/
def getEntry {β : Type} : List (String × β) → String → Option β
  | [], _ => none
  | (k', v') :: rest, k => if k' = k then some v' else getEntry rest k

/-- A JS object holding filter-state values. -/
abbrev Obj := List (String × Value)

/-- JS spread-merge of two objects. -/
def mergeObj (a b : Obj) : Obj :=
  b.foldl (fun acc kv => setEntry acc kv.1 kv.2) a

/-! ### Schema and serialization utilities (`schema/serialization.ts`) -/

/-- `SchemaDefinition`: an insertion-ordered mapping from field name to
field builder. -/
abbrev Schema := List (String × FieldBuilder)

/-- `getSchemaDefaults`: each field's `defaultValue`, in schema order. -/
def getSchemaDefaults (σ : Schema) : Obj :=
  σ.map (fun kv => (kv.1, kv.2._config.defaultValue))

/-- `serializeState`: for each present state key with a matching field, call
its serializer; empty serializations are omitted.  A throwing serializer
propagates (the source has no catch here). -/
def serializeState (σ : Schema) (state : Obj) : Except Unit (List (String × String)) :=
  state.foldlM (fun result kv =>
    match getEntry σ kv.1 with
    | none => .ok result
    | some fb => do
      let serialized ← fb._config.serialize kv.2
      .ok (if serialized = "" then result else setEntry result kv.1 serialized))
    []

/-- Raw value of one query-string entry: a single string or (as Next.js can
deliver) an array of strings. -/
inductive RawVal where
  | str (s : String)
  | list (xs : List String)

/-- The input map of `parseState`; absence of a key is JS `undefined`. -/
abbrev RawMap := List (String × RawVal)

/-- `Array.isArray(rawValue) ? rawValue.join(",") : rawValue`. -/
def rawStrValue : RawVal → String
  | .str s => s
  | .list xs => jsJoin "," xs

/-- One loop iteration of `parseState` for one schema entry. -/
def parseStep (stringMap : RawMap) (result : Obj) (kv : String × FieldBuilder) : Except Unit Obj :=
  match getEntry stringMap kv.1 with
  | none => .ok result
  | some raw => do
    let parsed ← kv.2._config.parse (rawStrValue raw)
    .ok (if parsed.isNull then result else setEntry result kv.1 parsed)

/-- `parseState`: for each schema key present in the map, parse it (a string
array is first joined with `","`); `null` parses are omitted.  A throwing
parser propagates (no catch in the source). -/
def parseState (σ : Schema) (stringMap : RawMap) : Except Unit Obj :=
  σ.foldlM (parseStep stringMap) []

/-- One loop iteration of `validateState` for one schema entry. -/
def validateStep (state : Obj) (result : Obj) (kv : String × FieldBuilder) : Except Unit Obj :=
  match getEntry state kv.1 with
  | none => .ok result
  | some value => do
    let serialized ← kv.2._config.serialize value
    let parsed ← kv.2._config.parse serialized
    .ok (if parsed.isNull then result else setEntry result kv.1 parsed)

/-- `validateState`: starting from the schema defaults, round-trip every
present value through `serialize` then `parse`; a non-`null` round trip
replaces the default.  Only the object branch of the source is modelled
(the `!state || typeof state !== "object"` guard returns the defaults).
A throwing codec propagates (no catch in the source). -/
def validateState (σ : Schema) (state : Obj) : Except Unit Obj :=
  σ.foldlM (validateStep state) (getSchemaDefaults σ)

/-! ### Zustand filter slice (`adapters/zustand/slice.ts`)

The store is the same association-list object model; entries that hold the
slice's action closures in the source are not materialised — the actions
are the functions below, applied to the store. -/

/-- A value held in a zustand store slot (the slice stores a filter-state
object, a paused flag and a pending delta that is an object or `null`). -/
inductive SVal where
  | missing
  | null
  | obj (o : Obj)
  | bool (b : Bool)

/-- The zustand store. -/
abbrev Store := List (String × SVal)

/-- JS read of a store slot; a missing key is `undefined`. -/
def readS (store : Store) (k : String) : SVal :=
  (getEntry store k).getD .missing

/-- JS truthiness of a store slot value (an object, even empty, is truthy). -/
def truthy : SVal → Bool
  | .missing => false
  | .null => false
  | .obj _ => true
  | .bool b => b

/-- JS object spread of a store slot value: spreading `undefined`, `null`
or a primitive contributes no entries. -/
def spreadObj : SVal → Obj
  | .obj o => o
  | _ => []

/-- The seven namespaced keys of `getFilterSliceKeys(tableId)`. -/
structure FilterSliceKeys where
  state : String
  paused : String
  pending : String
  setFilters : String
  resetFilters : String
  pauseFilters : String
  resumeFilters : String

/-- `getFilterSliceKeys`: state keys namespaced by table id. -/
def getFilterSliceKeys (tableId : String) : FilterSliceKeys :=
  { state := "filters_" ++ tableId
    paused := "filters_" ++ tableId ++ "_paused"
    pending := "filters_" ++ tableId ++ "_pending"
    setFilters := "setFilters_" ++ tableId
    resetFilters := "resetFilters_" ++ tableId
    pauseFilters := "pauseFilters_" ++ tableId
    resumeFilters := "resumeFilters_" ++ tableId }

/-- The state part of `createFilterSlice` spread into a store: initial
filters (defaults overlaid with the initial-state override), paused flag
`false`, pending delta `null`. -/
def createFilterSlice (σ : Schema) (tableId : String) (initialState : Obj) (store : Store) : Store :=
  let keys := getFilterSliceKeys tableId
  setEntry (setEntry (setEntry store
    keys.state (.obj (mergeObj (getSchemaDefaults σ) initialState)))
    keys.paused (.bool false))
    keys.pending .null

/-- The slice's `setFilters` action: while paused, merge into the pending
delta (`(pending || {})` spread-merged with the update); otherwise merge
into the current filter state. -/
def setFiltersAction (tableId : String) (p : Obj) (store : Store) : Store :=
  let keys := getFilterSliceKeys tableId
  if truthy (readS store keys.paused) then
    let pending := spreadObj (readS store keys.pending)
    setEntry store keys.pending (.obj (mergeObj pending p))
  else
    let current := spreadObj (readS store keys.state)
    setEntry store keys.state (.obj (mergeObj current p))

/-- The slice's `resetFilters` action: with a field list, overlay the
current state with those fields' defaults; with no argument, replace the
state with the defaults object.  (For a field absent from the schema the
source stores JS `undefined` in the overlay; this is modelled as `null`
and never exercised by the claims, which reset schema fields.) -/
def resetFiltersAction (σ : Schema) (tableId : String) (fields : Option (List String)) (store : Store) : Store :=
  let keys := getFilterSliceKeys tableId
  let defaults := getSchemaDefaults σ
  let current := spreadObj (readS store keys.state)
  match fields with
  | some fs =>
    let resetPartialObj :=
      fs.foldl (fun acc f => setEntry acc f ((getEntry defaults f).getD .null)) []
    setEntry store keys.state (.obj (mergeObj current resetPartialObj))
  | none => setEntry store keys.state (.obj defaults)

/-- The slice's `pauseFilters` action. -/
def pauseFiltersAction (tableId : String) (store : Store) : Store :=
  setEntry store (getFilterSliceKeys tableId).paused (.bool true)

/-- The slice's `resumeFilters` action: read the pending delta, clear the
paused flag and the delta in one `set`, then (if the delta was truthy)
overlay it onto the state read before the clear. -/
def resumeFiltersAction (tableId : String) (store : Store) : Store :=
  let keys := getFilterSliceKeys tableId
  let pending := readS store keys.pending
  let current := spreadObj (readS store keys.state)
  let cleared := setEntry (setEntry store keys.paused (.bool false)) keys.pending .null
  if truthy pending then
    setEntry cleared keys.state (.obj (mergeObj current (spreadObj pending)))
  else cleared

/-- One adapter-level call on the zustand adapter; `setField k v` is
`setState (k: v)` and `reset`/`pause`/`resume` delegate to the slice
actions (the primary path, with the slice present in the store). -/
inductive FilterOp where
  | setState (p : Obj)
  | setField (k : String) (v : Value)
  | reset (fields : Option (List String))
  | pause
  | resume

/-- Apply one adapter call to the store. -/
def applyOp (σ : Schema) (tableId : String) (store : Store) : FilterOp → Store
  | .setState p => setFiltersAction tableId p store
  | .setField k v => setFiltersAction tableId [(k, v)] store
  | .reset fs => resetFiltersAction σ tableId fs store
  | .pause => pauseFiltersAction tableId store
  | .resume => resumeFiltersAction tableId store

/-- Apply a sequence of adapter calls, oldest first. -/
def applyOps (σ : Schema) (tableId : String) (store : Store) (ops : List FilterOp) : Store :=
  ops.foldl (applyOp σ tableId) store

/-- The state of the zustand adapter's `getSnapshot()`:
`(state[keys.state]) || defaults` (a non-object truthy slot never occurs at
this key). -/
def zustandSnapshotState (σ : Schema) (tableId : String) (store : Store) : Obj :=
  match readS store (getFilterSliceKeys tableId).state with
  | .obj o => o
  | _ => getSchemaDefaults σ

/-- Everything one adapter observes of its own slice: filter state, paused
flag and pending delta. -/
def observeSlice (tableId : String) (store : Store) : SVal × SVal × SVal :=
  let keys := getFilterSliceKeys tableId
  (readS store keys.state, readS store keys.paused, readS store keys.pending)

/-! ### The nuqs adapter's pause machinery (`adapters/nuqs/adapter`)

The ref-level state machine of `useNuqsAdapter`: `pausedRef`,
`pendingStateRef`, and the committed query state (`setNuqsState` with the
functional spread-merge updater is modelled as a synchronous merge). -/

/-- The mutable refs of the nuqs adapter together with the committed query
state. -/
structure NuqsAdapterModel where
  paused : Bool
  pending : Option Obj
  urlState : Obj

/-- `setState`: while paused, spread-merge into the pending ref
(`(pending ?? {})` merged with the update) without touching the query
state; otherwise spread-merge into the query state. -/
def nuqsSetState (p : Obj) (m : NuqsAdapterModel) : NuqsAdapterModel :=
  if m.paused then
    { m with pending := some (mergeObj (m.pending.getD []) p) }
  else
    { m with urlState := mergeObj m.urlState p }

/-- `setField(key, value)` = `setState({ [key]: value })`. -/
def nuqsSetField (k : String) (v : Value) (m : NuqsAdapterModel) : NuqsAdapterModel :=
  nuqsSetState [(k, v)] m

/-- `reset(fields?)`: build the reset payload from the defaults and feed it
through `setState`. -/
def nuqsReset (defaults : Obj) (fields : Option (List String)) (m : NuqsAdapterModel) : NuqsAdapterModel :=
  match fields with
  | some fs =>
    nuqsSetState (fs.foldl (fun acc f => setEntry acc f ((getEntry defaults f).getD .null)) []) m
  | none => nuqsSetState defaults m

/-- `pause()`: set the paused ref. -/
def nuqsPause (m : NuqsAdapterModel) : NuqsAdapterModel :=
  { m with paused := true }

/-- `resume()`: clear the paused ref; if a pending delta exists, apply it
through one `setState` call and clear it. -/
def nuqsResume (m : NuqsAdapterModel) : NuqsAdapterModel :=
  let m1 := { m with paused := false }
  match m1.pending with
  | some p => { nuqsSetState p m1 with pending := none }
  | none => m1

/-! ### Text command parser (`parser/text-parser`)

Only `parse` and `serialize` are modelled (the caret utilities carry no
state-consistency content).  The source tokenizes on the regex
`\s*<fieldDelimiter>\s*` with the default delimiter `" "`; this is modelled
as a plain single-space split — the residual empty or whitespace-padded
parts it can additionally produce are discarded by the same empty-part and
trim logic as in the source. -/

/-- JS `s.trim()` (over the whitespace characters of the model). -/
def jsTrim (s : String) : String :=
  String.mk (((s.data.dropWhile Char.isWhitespace).reverse.dropWhile Char.isWhitespace).reverse)

/-- `part.indexOf(":")`: split a part at the first colon, `none` when there
is no colon. -/
def splitAtColon (part : String) : Option (String × String) :=
  let pre := part.data.takeWhile (fun c => c ≠ ':')
  if pre.length = part.data.length then none
  else some (String.mk pre, String.mk (part.data.drop (pre.length + 1)))

/-- The text parser's `parse`: tokenize `key:value` parts, resolve aliases,
parse each value with the field's codec inside a try/catch — a throwing or
`null` parse contributes nothing. -/
def createTextParserParse (σ : Schema) (aliases : List (String × String)) (input : String) : Obj :=
  if jsTrim input = "" then []
  else
    let parts := jsSplit (jsTrim input) " "
    parts.foldl (fun result part =>
      if part = "" then result
      else
        match splitAtColon part with
        | none => result
        | some kv =>
          let rawKey := jsTrim kv.1
          let rawValue := jsTrim kv.2
          if rawKey = "" then result
          else if rawValue = "" then result
          else
            let fieldKey := (getEntry aliases rawKey).getD rawKey
            match getEntry σ fieldKey with
            | none => result
            | some fb =>
              match fb._config.parse rawValue with
              | .error _ => result
              | .ok parsed =>
                if parsed.isNull then result else setEntry result fieldKey parsed)
      []

/-- JS `Array.isArray(v) && v.length === 0`. -/
def isEmptyArray : Value → Bool
  | .arr items => items.isEmpty
  | _ => false

/-- The text parser's `serialize`: skip `null` values and empty arrays,
serialize each remaining field inside a try/catch — a throwing or empty
serialization contributes nothing — and join `key:value` parts with the
field delimiter. -/
def createTextParserSerialize (σ : Schema) (state : Obj) : String :=
  let parts := state.foldl (fun parts kv =>
    if kv.2.isNull then parts
    else if isEmptyArray kv.2 then parts
    else
      match getEntry σ kv.1 with
      | none => parts
      | some fb =>
        match fb._config.serialize kv.2 with
        | .error _ => parts
        | .ok serialized =>
          if serialized = "" then parts else parts ++ [kv.1 ++ ":" ++ serialized])
    []
  jsJoin " " parts

/-! ### Sanity examples for the pipeline -/

example :
    validateState [("host", field.string)] [("host", .str "api")]
      = .ok [("host", .str "api")] := rfl
example :
    validateState [("host", field.string)] [("junk", .str "x")]
      = .ok [("host", .null)] := rfl
example :
    parseState [("regions", field.array field.string)] [("regions", .list ["ams", "gru"])]
      = .ok [("regions", .arr [.str "ams", .str "gru"])] := rfl
example :
    createTextParserParse [("host", field.string)] [] "host:api junk:1"
      = [("host", .str "api")] := rfl
example :
    createTextParserSerialize [("host", field.string)] [("host", .str "api")]
      = "host:api" := rfl

/-! ### Association-list lemmas -/

theorem getEntry_setEntry_self {β : Type} (o : List (String × β)) (k : String) (v : β) :
    getEntry (setEntry o k v) k = some v := by
  induction o with
  | nil => simp [setEntry, getEntry]
  | cons kv rest ih =>
    obtain ⟨k', v'⟩ := kv
    by_cases h : k' = k
    · subst h
      simp [setEntry, getEntry]
    · simp [setEntry, getEntry, h, ih]

theorem getEntry_setEntry_ne {β : Type} (o : List (String × β)) (k q : String) (v : β)
    (h : q ≠ k) : getEntry (setEntry o k v) q = getEntry o q := by
  have h' : ¬ k = q := fun hh => h hh.symm
  induction o with
  | nil => simp [setEntry, getEntry, h']
  | cons kv rest ih =>
    obtain ⟨k', v'⟩ := kv
    by_cases hk : k' = k
    · subst hk
      simp [setEntry, getEntry, h']
    · simp only [setEntry, if_neg hk, getEntry]
      by_cases hq : k' = q
      · simp [hq]
      · simp [hq, ih]

theorem setEntry_eq_of_getEntry {β : Type} (o : List (String × β)) (k : String) (v : β)
    (h : getEntry o k = some v) : setEntry o k v = o := by
  induction o with
  | nil => simp [getEntry] at h
  | cons kv rest ih =>
    obtain ⟨k', v'⟩ := kv
    by_cases hk : k' = k
    · subst hk
      have h2 : v' = v := by simpa [getEntry] using h
      subst h2
      simp [setEntry]
    · simp only [getEntry, if_neg hk] at h
      simp [setEntry, hk, ih h]

theorem getEntry_eq_none_of_not_mem {β : Type} (o : List (String × β)) (k : String)
    (h : k ∉ o.map Prod.fst) : getEntry o k = none := by
  induction o with
  | nil => simp [getEntry]
  | cons kv rest ih =>
    simp only [List.map_cons, List.mem_cons, not_or] at h
    have h1 : ¬ kv.1 = k := fun hh => h.1 hh.symm
    obtain ⟨k', v'⟩ := kv
    simp only [getEntry, if_neg h1]
    exact ih h.2

theorem getEntry_of_mem_nodup {β : Type} (o : List (String × β)) (k : String) (v : β)
    (hmem : (k, v) ∈ o) (hnd : (o.map Prod.fst).Nodup) : getEntry o k = some v := by
  induction o with
  | nil => simp at hmem
  | cons kv rest ih =>
    obtain ⟨k', v'⟩ := kv
    simp only [List.map_cons, List.nodup_cons] at hnd
    rcases List.mem_cons.mp hmem with h | h
    · cases h
      simp [getEntry]
    · have hk : ¬ k' = k := by
        intro he
        exact hnd.1 (he ▸ List.mem_map.mpr ⟨(k, v), h, rfl⟩)
      simp only [getEntry, if_neg hk]
      exact ih h hnd.2

theorem map_fst_setEntry_of_mem {β : Type} (o : List (String × β)) (k : String) (v : β)
    (h : k ∈ o.map Prod.fst) : (setEntry o k v).map Prod.fst = o.map Prod.fst := by
  induction o with
  | nil => simp at h
  | cons kv rest ih =>
    obtain ⟨k', v'⟩ := kv
    by_cases hk : k' = k
    · subst hk
      simp [setEntry]
    · simp only [List.map_cons, List.mem_cons] at h
      rcases h with h | h
      · exact absurd h.symm hk
      · simp [setEntry, hk, ih h]

theorem map_fst_setEntry_of_not_mem {β : Type} (o : List (String × β)) (k : String) (v : β)
    (h : k ∉ o.map Prod.fst) : (setEntry o k v).map Prod.fst = o.map Prod.fst ++ [k] := by
  induction o with
  | nil => simp [setEntry]
  | cons kv rest ih =>
    obtain ⟨k', v'⟩ := kv
    simp only [List.map_cons, List.mem_cons, not_or] at h
    have h1 : ¬ k' = k := fun hh => h.1 hh.symm
    simp [setEntry, h1, ih h.2]

theorem setEntry_nodup_keys {β : Type} (o : List (String × β)) (k : String) (v : β)
    (h : (o.map Prod.fst).Nodup) : ((setEntry o k v).map Prod.fst).Nodup := by
  by_cases hmem : k ∈ o.map Prod.fst
  · rw [map_fst_setEntry_of_mem o k v hmem]
    exact h
  · rw [map_fst_setEntry_of_not_mem o k v hmem]
    simp only [List.nodup_append]
    exact ⟨h, List.nodup_singleton k, by simpa using fun hk => hmem hk⟩

theorem mergeObj_nil (a : Obj) : mergeObj a [] = a := rfl

theorem mergeObj_cons (a : Obj) (kv : String × Value) (b : Obj) :
    mergeObj a (kv :: b) = mergeObj (setEntry a kv.1 kv.2) b := rfl

theorem mergeObj_single (a : Obj) (k : String) (v : Value) :
    mergeObj a [(k, v)] = setEntry a k v := rfl

theorem getEntry_mergeObj_of_not_mem (a b : Obj) (k : String)
    (h : k ∉ b.map Prod.fst) : getEntry (mergeObj a b) k = getEntry a k := by
  induction b generalizing a with
  | nil => rfl
  | cons kv rest ih =>
    simp only [List.map_cons, List.mem_cons, not_or] at h
    rw [mergeObj_cons, ih _ h.2]
    exact getEntry_setEntry_ne _ _ _ _ h.1

theorem getEntry_mergeObj_nodup (a b : Obj) (k : String)
    (hnd : (b.map Prod.fst).Nodup) :
    getEntry (mergeObj a b) k = (getEntry b k).or (getEntry a k) := by
  induction b generalizing a with
  | nil => simp [mergeObj_nil, getEntry]
  | cons kv rest ih =>
    obtain ⟨k', v'⟩ := kv
    simp only [List.map_cons, List.nodup_cons] at hnd
    rw [mergeObj_cons, ih _ hnd.2]
    by_cases hk : k' = k
    · subst hk
      rw [getEntry_eq_none_of_not_mem rest k' hnd.1]
      simp [getEntry, getEntry_setEntry_self]
    · have hk' : k ≠ k' := fun hh => hk hh.symm
      simp only [getEntry, if_neg hk]
      rw [getEntry_setEntry_ne _ _ _ _ hk']

theorem getEntry_foldl_setEntry_fn {β : Type} (g : String → β) (fs : List String)
    (acc : List (String × β)) (f : String) :
    getEntry (fs.foldl (fun a f' => setEntry a f' (g f')) acc) f
      = if f ∈ fs then some (g f) else getEntry acc f := by
  induction fs generalizing acc with
  | nil => simp
  | cons f' rest ih =>
    rw [List.foldl_cons, ih]
    by_cases hmem : f ∈ rest
    · simp [hmem]
    · by_cases hf : f = f'
      · subst hf
        simp [hmem, getEntry_setEntry_self]
      · simp [hmem, hf, getEntry_setEntry_ne _ _ _ _ hf]

theorem foldl_setEntry_nodup_keys {β : Type} (g : String → β) (fs : List String)
    (acc : List (String × β)) (h : (acc.map Prod.fst).Nodup) :
    ((fs.foldl (fun a f' => setEntry a f' (g f')) acc).map Prod.fst).Nodup := by
  induction fs generalizing acc with
  | nil => exact h
  | cons f' rest ih => exact ih _ (setEntry_nodup_keys _ _ _ h)


/-! ### Decimal printing/parsing round-trip lemmas -/

theorem digitVal_digitChar (d : Nat) (h : d < 10) : digitVal (digitChar d) = d := by
  interval_cases d <;> decide

theorem isDigit_digitChar (d : Nat) (h : d < 10) : (digitChar d).isDigit = true := by
  interval_cases d <;> decide

theorem isDigit_not_whitespace (c : Char) (h : c.isDigit = true) :
    c.isWhitespace = false := by
  cases hw : c.isWhitespace
  · rfl
  · simp only [Char.isWhitespace, Bool.or_eq_true, decide_eq_true_eq] at hw
    rcases hw with ((h1 | h1) | h1) | h1 <;> (subst h1; exact absurd h (by decide))

theorem isDigit_ne_of_special (c : Char) (h : c.isDigit = true) :
    c ≠ '-' ∧ c ≠ '+' ∧ c ≠ ',' ∧ c ≠ '.' := by
  refine ⟨?_, ?_, ?_, ?_⟩ <;> (intro he; subst he; exact absurd h (by decide))

theorem natToChars_small (n : Nat) (h : n < 10) : natToChars n = [digitChar n] := by
  simp [natToChars, natToCharsGo, h]

theorem natToCharsGo_eq (n : Nat) : ∀ (fuel : Nat) (acc : List Char), n + 1 ≤ fuel →
    natToCharsGo fuel n acc = natToChars n ++ acc := by
  induction n using Nat.strong_induction_on with
  | _ n ih =>
    intro fuel acc hfuel
    obtain ⟨f, rfl⟩ : ∃ f, fuel = f + 1 := ⟨fuel - 1, by omega⟩
    by_cases h10 : n < 10
    · simp [natToCharsGo, h10, natToChars_small n h10]
    · have hdiv : n / 10 < n := Nat.div_lt_self (by omega) (by omega)
      have hstep : natToChars n = natToChars (n / 10) ++ [digitChar (n % 10)] := by
        show natToCharsGo (n + 1) n [] = _
        obtain ⟨m, hm⟩ : ∃ m, n + 1 = m + 1 := ⟨n, rfl⟩
        rw [hm]
        simp only [natToCharsGo, if_neg h10]
        exact ih _ hdiv m [digitChar (n % 10)] (by omega)
      simp only [natToCharsGo, if_neg h10]
      rw [ih _ hdiv f (digitChar (n % 10) :: acc) (by omega), hstep]
      simp

theorem natToChars_step (n : Nat) (h : ¬ n < 10) :
    natToChars n = natToChars (n / 10) ++ [digitChar (n % 10)] := by
  show natToCharsGo (n + 1) n [] = _
  have hdiv : n / 10 < n := Nat.div_lt_self (by omega) (by omega)
  obtain ⟨m, hm⟩ : ∃ m, n + 1 = m + 1 := ⟨n, rfl⟩
  rw [hm]
  simp only [natToCharsGo, if_neg h]
  exact natToCharsGo_eq (n / 10) m [digitChar (n % 10)] (by omega)

theorem natToChars_ne_nil (n : Nat) : natToChars n ≠ [] := by
  by_cases h : n < 10
  · simp [natToChars_small n h]
  · simp [natToChars_step n h]

theorem mem_natToChars_isDigit (n : Nat) : ∀ c ∈ natToChars n, c.isDigit = true := by
  induction n using Nat.strong_induction_on with
  | _ n ih =>
    intro c hc
    by_cases h : n < 10
    · rw [natToChars_small n h] at hc
      simp only [List.mem_singleton] at hc
      subst hc
      exact isDigit_digitChar n h
    · rw [natToChars_step n h] at hc
      rcases List.mem_append.mp hc with h1 | h1
      · exact ih _ (Nat.div_lt_self (by omega) (by omega)) c h1
      · simp only [List.mem_singleton] at h1
        subst h1
        exact isDigit_digitChar _ (Nat.mod_lt _ (by omega))

theorem decDigitsVal_append (cs : List Char) (c : Char) :
    decDigitsVal (cs ++ [c]) = decDigitsVal cs * 10 + digitVal c := by
  simp [decDigitsVal, List.foldl_append]

theorem decDigitsVal_natToChars (n : Nat) : decDigitsVal (natToChars n) = n := by
  induction n using Nat.strong_induction_on with
  | _ n ih =>
    by_cases h : n < 10
    · rw [natToChars_small n h]
      show 0 * 10 + digitVal (digitChar n) = n
      rw [digitVal_digitChar n h]
      omega
    · rw [natToChars_step n h, decDigitsVal_append,
        ih _ (Nat.div_lt_self (by omega) (by omega)),
        digitVal_digitChar _ (Nat.mod_lt _ (by omega))]
      omega

theorem jsParseInt_intToString (n : Int) : jsParseInt (intToString n) = some n := by
  by_cases hneg : n < 0
  · have hchars : (intToString n).data = '-' :: natToChars n.natAbs := by
      simp [intToString, intToChars, hneg]
    have hds : (natToChars n.natAbs).takeWhile Char.isDigit = natToChars n.natAbs :=
      List.takeWhile_eq_self_iff.mpr (mem_natToChars_isDigit n.natAbs)
    rw [jsParseInt, hchars, List.dropWhile_cons]
    simp only [show ('-').isWhitespace = false by decide, Bool.false_eq_true, if_false,
      List.head?_cons, List.tail_cons]
    simp only [true_or, if_true, hds, if_neg (natToChars_ne_nil n.natAbs),
      decDigitsVal_natToChars]
    congr 1
    show -(n.natAbs : Int) = n
    omega
  · have hchars : (intToString n).data = natToChars n.natAbs := by
      simp [intToString, intToChars, hneg]
    obtain ⟨d, rest, hL⟩ : ∃ d rest, natToChars n.natAbs = d :: rest := by
      cases hL : natToChars n.natAbs with
      | nil => exact absurd hL (natToChars_ne_nil _)
      | cons d rest => exact ⟨d, rest, rfl⟩
    have hdig : d.isDigit = true :=
      mem_natToChars_isDigit n.natAbs d (by rw [hL]; exact List.mem_cons_self _ _)
    have hspec := isDigit_ne_of_special d hdig
    have hds : List.takeWhile Char.isDigit (d :: rest) = d :: rest := by
      rw [← hL]
      exact List.takeWhile_eq_self_iff.mpr (mem_natToChars_isDigit n.natAbs)
    have hd1 : ¬ ((d :: rest).head? = some '-') := by simp [hspec.1]
    have hd2 : ¬ ((d :: rest).head? = some '+') := by simp [hspec.2.1]
    have hcond : ¬ ((d :: rest).head? = some '-' ∨ (d :: rest).head? = some '+') := by
      rintro (hh | hh)
      · exact hd1 hh
      · exact hd2 hh
    have hval : decDigitsVal (d :: rest) = n.natAbs := by
      rw [← hL]
      exact decDigitsVal_natToChars n.natAbs
    rw [jsParseInt, hchars, hL, List.dropWhile_cons]
    simp only [isDigit_not_whitespace d hdig, Bool.false_eq_true, if_false]
    rw [if_neg hcond, hds, if_neg (by rw [← hL]; exact natToChars_ne_nil n.natAbs),
      if_neg hd1, hval]
    congr 1
    show (n.natAbs : Int) = n
    omega

/-! ### Split/join lemmas (single-character separators) -/

theorem splitOn_cons_char (c x : Char) (xs : List Char) :
    (x :: xs).splitOn c = if x = c then [] :: xs.splitOn c
      else (xs.splitOn c).modifyHead (List.cons x) := by
  show List.splitOnP (· == c) (x :: xs)
      = if x = c then [] :: List.splitOnP (· == c) xs
        else (List.splitOnP (· == c) xs).modifyHead (List.cons x)
  rw [List.splitOnP_cons]
  by_cases h : x = c
  · simp [h]
  · simp [h]

theorem splitOn_char_ne_nil (c : Char) (l : List Char) : l.splitOn c ≠ [] :=
  List.splitOnP_ne_nil _ l

theorem splitSeqGo_single (c : Char) : ∀ (fuel : Nat) (l : List Char), l.length ≤ fuel →
    splitSeqGo c [] fuel l = l.splitOn c := by
  intro fuel
  induction fuel with
  | zero =>
    intro l hl
    have hnil : l = [] := List.eq_nil_of_length_eq_zero (by omega)
    subst hnil
    rfl
  | succ f ih =>
    intro l hl
    cases l with
    | nil => rfl
    | cons x xs =>
      have hlen : xs.length ≤ f := by
        simp only [List.length_cons] at hl
        omega
      rw [splitOn_cons_char]
      by_cases hx : x = c
      · subst hx
        have hpre : List.isPrefixOf [x] (x :: xs) = true := by
          simp [List.isPrefixOf]
        simp only [splitSeqGo, hpre, if_true, List.length_nil, List.drop_zero, if_pos rfl]
        rw [ih xs hlen]
      · have hpre : List.isPrefixOf [c] (x :: xs) = false := by
          simp [List.isPrefixOf]
          exact fun h => hx h.symm
        simp only [splitSeqGo, hpre, Bool.false_eq_true, if_false, if_neg hx]
        rw [ih xs hlen]
        cases hsp : xs.splitOn c with
        | nil => exact absurd hsp (splitOn_char_ne_nil c xs)
        | cons t ts => simp [List.modifyHead]

theorem jsSplit_single (s sep : String) (c : Char) (hsep : sep.data = [c]) :
    jsSplit s sep = (s.data.splitOn c).map String.mk := by
  unfold jsSplit
  rw [hsep]
  exact congrArg (List.map String.mk) (splitSeqGo_single c s.data.length s.data (le_refl _))

theorem not_mem_of_mem_splitOn (c : Char) (l : List Char) :
    ∀ t ∈ l.splitOn c, c ∉ t := by
  induction l with
  | nil =>
    intro t ht
    have : t = [] := by simpa [List.splitOn_nil] using ht
    subst this
    simp
  | cons x xs ih =>
    intro t ht
    rw [splitOn_cons_char] at ht
    by_cases hx : x = c
    · rw [if_pos hx] at ht
      rcases List.mem_cons.mp ht with h | h
      · subst h
        simp
      · exact ih t h
    · rw [if_neg hx] at ht
      obtain ⟨t0, ts, hsp⟩ : ∃ t0 ts, xs.splitOn c = t0 :: ts := by
        cases hsp : xs.splitOn c with
        | nil => exact absurd hsp (splitOn_char_ne_nil c xs)
        | cons a b => exact ⟨a, b, rfl⟩
      rw [hsp] at ht
      simp only [List.modifyHead] at ht
      rcases List.mem_cons.mp ht with h | h
      · subst h
        intro hc
        rcases List.mem_cons.mp hc with h1 | h1
        · exact hx h1.symm
        · exact ih t0 (by rw [hsp]; exact List.mem_cons_self _ _) h1
      · exact ih t (by rw [hsp]; exact List.mem_cons.mpr (Or.inr h))

theorem jsSplit_jsJoin (c : Char) (sep : String) (hsep : sep.data = [c]) (parts : List String)
    (hne : parts ≠ []) (hfree : ∀ p ∈ parts, c ∉ p.data) :
    jsSplit (jsJoin sep parts) sep = parts := by
  rw [jsSplit_single _ _ c hsep]
  have hdata : (jsJoin sep parts).data = [c].intercalate (parts.map String.data) := by
    simp [jsJoin, hsep]
  rw [hdata, List.splitOn_intercalate (parts.map String.data) c
    (by
      intro l hl
      obtain ⟨p, hp, rfl⟩ := List.mem_map.mp hl
      exact hfree p hp)
    (by simpa using hne)]
  rw [List.map_map]
  have hid : ∀ ps : List String, ps.map (fun p => String.mk p.data) = ps := by
    intro ps
    induction ps with
    | nil => rfl
    | cons p ps ihp => simp [ihp]
  exact hid parts

theorem string_mk_ne_empty (l : List Char) (h : l ≠ []) : String.mk l ≠ "" := by
  intro he
  exact h (by simpa using congrArg String.data he)

theorem intToString_ne_empty (n : Int) : intToString n ≠ "" := by
  apply string_mk_ne_empty
  unfold intToChars
  by_cases h : n < 0
  · simp [h]
  · simp [h, natToChars_ne_nil]

theorem mem_intToChars (n : Int) (c : Char) (h : c ∈ intToChars n) :
    c.isDigit = true ∨ c = '-' := by
  unfold intToChars at h
  by_cases hn : n < 0
  · rw [if_pos hn] at h
    rcases List.mem_cons.mp h with h1 | h1
    · exact Or.inr h1
    · exact Or.inl (mem_natToChars_isDigit _ c h1)
  · rw [if_neg hn] at h
    exact Or.inl (mem_natToChars_isDigit _ c h)

theorem jsParseInt_nonneg (s : String) (n : Int) (hminus : '-' ∉ s.data)
    (h : jsParseInt s = some n) : 0 ≤ n := by
  simp only [jsParseInt] at h
  have hneg : ¬ ((s.data.dropWhile Char.isWhitespace).head? = some '-') := by
    intro hh
    have hmem : '-' ∈ s.data.dropWhile Char.isWhitespace := by
      cases hcase : s.data.dropWhile Char.isWhitespace with
      | nil =>
        rw [hcase] at hh
        simp at hh
      | cons a b =>
        rw [hcase] at hh
        simp only [List.head?_cons, Option.some.injEq] at hh
        subst hh
        exact List.mem_cons_self _ _
    exact hminus ((List.dropWhile_sublist _).subset hmem)
  rw [if_neg hneg] at h
  by_cases hcond : ((s.data.dropWhile Char.isWhitespace).head? = some '-'
      ∨ (s.data.dropWhile Char.isWhitespace).head? = some '+')
  · rw [if_pos hcond] at h
    split at h
    · exact absurd h (by simp)
    · have h2 := Option.some.inj h
      subst h2
      exact Int.ofNat_nonneg _
  · rw [if_neg hcond] at h
    split at h
    · exact absurd h (by simp)
    · have h2 := Option.some.inj h
      subst h2
      exact Int.ofNat_nonneg _

/-! ### Small `Except` and `mapM` tools -/

theorem okInj {α : Type} {a b : α} (h : (Except.ok a : Except Unit α) = Except.ok b) : a = b :=
  Except.ok.inj h

theorem except_bind_ok {α β : Type} (a : α) (g : α → Except Unit β) :
    ((Except.ok a : Except Unit α) >>= g) = g a := rfl

theorem except_bind_error {α β : Type} (g : α → Except Unit β) :
    ((Except.error () : Except Unit α) >>= g) = .error () := rfl

theorem mapM_ok_of_forall₂ {α β : Type} (f : α → Except Unit β) (l : List α) (bs : List β)
    (h : List.Forall₂ (fun a b => f a = .ok b) l bs) : l.mapM f = .ok bs := by
  induction h with
  | nil => rfl
  | cons hab _ ih =>
    rename_i a b l' bs'
    rw [List.mapM_cons, hab, ih]
    rfl

theorem mapM_ok_inv {α β : Type} (f : α → Except Unit β) :
    ∀ (l : List α) (bs : List β), l.mapM f = .ok bs →
      List.Forall₂ (fun a b => f a = .ok b) l bs := by
  intro l
  induction l with
  | nil =>
    intro bs h
    rw [List.mapM_nil] at h
    have : bs = [] := (okInj h).symm
    subst this
    exact List.Forall₂.nil
  | cons a l' ih =>
    intro bs h
    rw [List.mapM_cons] at h
    cases hfa : f a with
    | error e =>
      rw [hfa] at h
      exact absurd h (by cases e; simp [except_bind_error])
    | ok b =>
      rw [hfa] at h
      rw [except_bind_ok] at h
      cases hrest : l'.mapM f with
      | error e =>
        rw [hrest] at h
        exact absurd h (by cases e; simp [except_bind_error])
      | ok bs' =>
        rw [hrest] at h
        rw [except_bind_ok] at h
        have : b :: bs' = bs := okInj h
        subst this
        exact List.Forall₂.cons hfa (ih bs' hrest)

theorem exists_forall₂_of_mem {α β : Type} (P : α → β → Prop) :
    ∀ (l : List α), (∀ a ∈ l, ∃ b, P a b) → ∃ bs, List.Forall₂ P l bs := by
  intro l
  induction l with
  | nil => exact fun _ => ⟨[], List.Forall₂.nil⟩
  | cons a l' ih =>
    intro h
    obtain ⟨b, hb⟩ := h a (List.mem_cons_self _ _)
    obtain ⟨bs, hbs⟩ := ih (fun x hx => h x (List.mem_cons.mpr (Or.inr hx)))
    exact ⟨b :: bs, List.Forall₂.cons hb hbs⟩

/-! ### Definitional characterizations of the built-in codecs -/

theorem string_parse_eq (s : String) :
    (field.string)._config.parse s
      = .ok (if s = "" then Value.null else Value.str s) := rfl

theorem string_serialize_str (s : String) :
    (field.string)._config.serialize (.str s) = .ok s := rfl

theorem number_parse_eq (s : String) :
    (field.number)._config.parse s = .ok (
      if s = "" then Value.null
      else
        match jsParseInt s with
        | none => Value.null
        | some n => Value.num n) := rfl

theorem number_serialize_num (n : Int) :
    (field.number)._config.serialize (.num n) = .ok (intToString n) := rfl

theorem boolean_parse_eq (s : String) :
    (field.boolean)._config.parse s = .ok (
      if s = "" then Value.null
      else if s = "true" then Value.bool true
      else if s = "false" then Value.bool false
      else Value.null) := rfl

theorem timestamp_parse_eq (s : String) :
    (field.timestamp)._config.parse s = .ok (
      if s = "" then Value.null
      else
        match jsParseInt s with
        | none => Value.null
        | some t => if t.natAbs ≤ field.MAX_DATE_MS then Value.date t else Value.null) := rfl

theorem timestamp_serialize_date (t : Int) :
    (field.timestamp)._config.serialize (.date t) = .ok (intToString t) := rfl

theorem stringLiteral_parse_eq (lits : List String) (s : String) :
    (field.stringLiteral lits)._config.parse s = .ok (
      if s = "" then Value.null
      else if lits.contains s then Value.str s else Value.null) := rfl

theorem stringLiteral_serialize_str (lits : List String) (s : String) :
    (field.stringLiteral lits)._config.serialize (.str s) = .ok s := rfl

theorem sort_parse_eq (s : String) :
    (field.sort)._config.parse s = .ok (
      if s = "" then Value.null
      else
        let parts := jsSplit s SORT_DELIMITER
        let id := parts.headD ""
        let descTok := parts[1]?
        if id = "" then Value.null
        else Value.sortVal id (descTok == some "desc")) := rfl

theorem sort_serialize_val (id : String) (desc : Bool) :
    (field.sort)._config.serialize (.sortVal id desc)
      = .ok (id ++ SORT_DELIMITER ++ (if desc then "desc" else "asc")) := rfl

theorem array_parse_eq (ib : FieldBuilder) (s : String) :
    (field.array ib)._config.parse s =
      (if s = "" then .ok (.arr [])
       else do
         let vs ← (jsSplit s (field.array ib)._config.delimiter).mapM ib._config.parse
         Except.ok (.arr (vs.filter (fun v => !v.isNull)))) := rfl

theorem array_serialize_eq (ib : FieldBuilder) (v : Value) :
    (field.array ib)._config.serialize v =
      (match v with
       | .arr items =>
         if items.isEmpty then .ok ""
         else do
           let outs ← items.mapM ib._config.serialize
           Except.ok (jsJoin (field.array ib)._config.delimiter outs)
       | _ => .ok "") := rfl

theorem array_defaultValue (ib : FieldBuilder) :
    (field.array ib)._config.defaultValue = .arr [] := rfl

/-! ### Round-trip closure of the built-in codecs (claim C2 vocabulary) -/

/-- `parse(serialize(v))` reproduces `v` (and neither side throws). -/
def RoundTripsAt (cfg : FieldConfig) (v : Value) : Prop :=
  ∃ out, cfg.serialize v = .ok out ∧ cfg.parse out = .ok v

/-- The round-trip contract of one field codec: the default value
round-trips, and every value in the image of its own `parse` round-trips
(hence repeated round-trips are idempotent). -/
def CodecRoundTripClosed (cfg : FieldConfig) : Prop :=
  RoundTripsAt cfg cfg.defaultValue ∧ ∀ s v, cfg.parse s = .ok v → RoundTripsAt cfg v

theorem string_roundtrip : CodecRoundTripClosed (field.string)._config := by
  constructor
  · exact ⟨"", rfl, rfl⟩
  · intro s v h
    rw [string_parse_eq] at h
    have h2 := okInj h
    by_cases hs : s = ""
    · rw [if_pos hs] at h2
      subst h2
      exact ⟨"", rfl, rfl⟩
    · rw [if_neg hs] at h2
      subst h2
      refine ⟨s, string_serialize_str s, ?_⟩
      rw [string_parse_eq, if_neg hs]

theorem number_roundtrip : CodecRoundTripClosed (field.number)._config := by
  constructor
  · exact ⟨"", rfl, rfl⟩
  · intro s v h
    rw [number_parse_eq] at h
    have h2 := okInj h
    by_cases hs : s = ""
    · rw [if_pos hs] at h2
      subst h2
      exact ⟨"", rfl, rfl⟩
    · rw [if_neg hs] at h2
      cases hp : jsParseInt s with
      | none =>
        rw [hp] at h2
        subst h2
        exact ⟨"", rfl, rfl⟩
      | some n =>
        rw [hp] at h2
        subst h2
        refine ⟨intToString n, number_serialize_num n, ?_⟩
        rw [number_parse_eq, if_neg (intToString_ne_empty n), jsParseInt_intToString n]

theorem boolean_roundtrip : CodecRoundTripClosed (field.boolean)._config := by
  constructor
  · exact ⟨"", rfl, rfl⟩
  · intro s v h
    rw [boolean_parse_eq] at h
    have h2 := okInj h
    by_cases hs : s = ""
    · rw [if_pos hs] at h2
      subst h2
      exact ⟨"", rfl, rfl⟩
    · rw [if_neg hs] at h2
      by_cases ht : s = "true"
      · rw [if_pos ht] at h2
        subst h2
        exact ⟨"true", rfl, rfl⟩
      · rw [if_neg ht] at h2
        by_cases hf : s = "false"
        · rw [if_pos hf] at h2
          subst h2
          exact ⟨"false", rfl, rfl⟩
        · rw [if_neg hf] at h2
          subst h2
          exact ⟨"", rfl, rfl⟩

theorem timestamp_roundtrip : CodecRoundTripClosed (field.timestamp)._config := by
  constructor
  · exact ⟨"", rfl, rfl⟩
  · intro s v h
    rw [timestamp_parse_eq] at h
    have h2 := okInj h
    by_cases hs : s = ""
    · rw [if_pos hs] at h2
      subst h2
      exact ⟨"", rfl, rfl⟩
    · rw [if_neg hs] at h2
      cases hp : jsParseInt s with
      | none =>
        rw [hp] at h2
        subst h2
        exact ⟨"", rfl, rfl⟩
      | some t =>
        rw [hp] at h2
        have h3 : (if t.natAbs ≤ field.MAX_DATE_MS then Value.date t else Value.null) = v := h2
        by_cases hrange : t.natAbs ≤ field.MAX_DATE_MS
        · rw [if_pos hrange] at h3
          subst h3
          refine ⟨intToString t, timestamp_serialize_date t, ?_⟩
          rw [timestamp_parse_eq, if_neg (intToString_ne_empty t)]
          show Except.ok (match jsParseInt (intToString t) with
            | none => Value.null
            | some u => if u.natAbs ≤ field.MAX_DATE_MS then Value.date u else Value.null)
            = Except.ok (Value.date t)
          rw [jsParseInt_intToString t]
          show Except.ok (if t.natAbs ≤ field.MAX_DATE_MS then Value.date t else Value.null)
            = Except.ok (Value.date t)
          rw [if_pos hrange]
        · rw [if_neg hrange] at h3
          subst h3
          exact ⟨"", rfl, rfl⟩

theorem stringLiteral_roundtrip (lits : List String) :
    CodecRoundTripClosed (field.stringLiteral lits)._config := by
  constructor
  · exact ⟨"", rfl, rfl⟩
  · intro s v h
    rw [stringLiteral_parse_eq] at h
    have h2 := okInj h
    by_cases hs : s = ""
    · rw [if_pos hs] at h2
      subst h2
      exact ⟨"", rfl, rfl⟩
    · rw [if_neg hs] at h2
      by_cases hmem : lits.contains s
      · rw [if_pos hmem] at h2
        subst h2
        refine ⟨s, stringLiteral_serialize_str lits s, ?_⟩
        rw [stringLiteral_parse_eq, if_neg hs, if_pos hmem]
      · rw [if_neg hmem] at h2
        subst h2
        exact ⟨"", rfl, rfl⟩

theorem sort_append_eq_join (id dir : String) :
    id ++ SORT_DELIMITER ++ dir = jsJoin SORT_DELIMITER [id, dir] := by
  apply String.ext
  show (id ++ SORT_DELIMITER ++ dir).data = (jsJoin SORT_DELIMITER [id, dir]).data
  have h1 : (id ++ SORT_DELIMITER ++ dir).data = id.data ++ ['.'] ++ dir.data := rfl
  have h2 : (jsJoin SORT_DELIMITER [id, dir]).data
      = List.intercalate ['.'] [id.data, dir.data] := rfl
  rw [h1, h2]
  simp [List.intercalate, List.intersperse]

theorem sort_roundtrip : CodecRoundTripClosed (field.sort)._config := by
  constructor
  · exact ⟨"", rfl, rfl⟩
  · intro s v h
    rw [sort_parse_eq] at h
    have h2 := okInj h
    by_cases hs : s = ""
    · rw [if_pos hs] at h2
      subst h2
      exact ⟨"", rfl, rfl⟩
    · rw [if_neg hs] at h2
      obtain ⟨t0, ts0, hsp⟩ : ∃ t0 ts0, s.data.splitOn '.' = t0 :: ts0 := by
        cases hsp : s.data.splitOn '.' with
        | nil => exact absurd hsp (splitOn_char_ne_nil '.' s.data)
        | cons a b => exact ⟨a, b, rfl⟩
      have hparts : jsSplit s SORT_DELIMITER = String.mk t0 :: ts0.map String.mk := by
        rw [jsSplit_single s SORT_DELIMITER '.' rfl, hsp, List.map_cons]
      have h3 : (if (jsSplit s SORT_DELIMITER).headD "" = "" then Value.null
          else Value.sortVal ((jsSplit s SORT_DELIMITER).headD "")
            ((jsSplit s SORT_DELIMITER)[1]? == some "desc")) = v := h2
      rw [hparts] at h3
      simp only [List.headD_cons] at h3
      by_cases hid : String.mk t0 = ""
      · rw [if_pos hid] at h3
        subst h3
        exact ⟨"", rfl, rfl⟩
      · rw [if_neg hid] at h3
        subst h3
        generalize hbb : ((String.mk t0 :: ts0.map String.mk)[1]? == some "desc") = b
        have hfree_id : '.' ∉ (String.mk t0).data :=
          not_mem_of_mem_splitOn '.' s.data t0 (by rw [hsp]; exact List.mem_cons_self _ _)
        have hfree_dir : '.' ∉ (if b then "desc" else "asc").data := by
          cases b <;> decide
        have hsplit2 : jsSplit (String.mk t0 ++ SORT_DELIMITER ++ (if b then "desc" else "asc"))
            SORT_DELIMITER = [String.mk t0, (if b then "desc" else "asc")] := by
          rw [sort_append_eq_join]
          apply jsSplit_jsJoin '.' SORT_DELIMITER rfl
          · simp
          · intro p hp
            rcases List.mem_cons.mp hp with h1 | h1
            · subst h1
              exact hfree_id
            · rcases List.mem_cons.mp h1 with h2 | h2
              · subst h2
                exact hfree_dir
              · simp at h2
        have hne : String.mk t0 ++ SORT_DELIMITER ++ (if b then "desc" else "asc") ≠ "" := by
          intro he
          have hd := congrArg String.data he
          have : t0 ++ ['.'] ++ (if b then "desc" else "asc").data = [] := hd
          simp at this
        refine ⟨_, sort_serialize_val (String.mk t0) b, ?_⟩
        rw [sort_parse_eq, if_neg hne]
        show Except.ok (
          if (jsSplit (String.mk t0 ++ SORT_DELIMITER ++ (if b then "desc" else "asc"))
              SORT_DELIMITER).headD "" = "" then Value.null
          else Value.sortVal
            ((jsSplit (String.mk t0 ++ SORT_DELIMITER ++ (if b then "desc" else "asc"))
              SORT_DELIMITER).headD "")
            ((jsSplit (String.mk t0 ++ SORT_DELIMITER ++ (if b then "desc" else "asc"))
              SORT_DELIMITER)[1]? == some "desc"))
          = Except.ok (Value.sortVal (String.mk t0) b)
        rw [hsplit2]
        simp only [List.headD_cons]
        rw [if_neg hid]
        have hsecond : ([String.mk t0, (if b then "desc" else "asc")])[1]?
            = some (if b then "desc" else "asc") := rfl
        rw [hsecond]
        cases b <;> simp

theorem forall₂_mem_right {α β : Type} (P : α → β → Prop) (l : List α) (bs : List β)
    (h : List.Forall₂ P l bs) : ∀ b ∈ bs, ∃ a ∈ l, P a b := by
  induction h with
  | nil =>
    intro b hb
    simp at hb
  | cons hab htail ih =>
    intro b hb
    rcases List.mem_cons.mp hb with h1 | h1
    · subst h1
      exact ⟨_, List.mem_cons_self _ _, hab⟩
    · obtain ⟨a, ha, hp⟩ := ih b h1
      exact ⟨a, List.mem_cons.mpr (Or.inr ha), hp⟩

theorem jsJoin_ne_empty (sep : String) (o0 : String) (rest : List String) (ho : o0 ≠ "") :
    jsJoin sep (o0 :: rest) ≠ "" := by
  apply string_mk_ne_empty
  show List.intercalate sep.data (o0.data :: rest.map String.data) ≠ []
  have hd : o0.data ≠ [] := by
    intro he
    exact ho (by apply String.ext; simpa using he)
  cases rest with
  | nil => simpa [List.intercalate, List.intersperse] using hd
  | cons y ys => simp [List.intercalate, List.intersperse, hd]

/-- An item codec compatible with the array contract at delimiter character
`c`: every non-`null` parse of a delimiter-free token serializes to a
nonempty, delimiter-free string that re-parses to the same value. -/
def GoodItemCodec (cfg : FieldConfig) (c : Char) : Prop :=
  ∀ s v, c ∉ s.data → cfg.parse s = .ok v → v.isNull = false →
    ∃ out, cfg.serialize v = .ok out ∧ out ≠ "" ∧ c ∉ out.data ∧ cfg.parse out = .ok v

theorem array_roundtrip_of_goodItem (ib : FieldBuilder) (c : Char)
    (hdelim : (field.array ib)._config.delimiter.data = [c])
    (hgood : GoodItemCodec ib._config c) :
    CodecRoundTripClosed (field.array ib)._config := by
  constructor
  · exact ⟨"", rfl, rfl⟩
  · intro s v h
    rw [array_parse_eq] at h
    by_cases hs : s = ""
    · rw [if_pos hs] at h
      have h2 := okInj h
      subst h2
      exact ⟨"", rfl, rfl⟩
    · rw [if_neg hs] at h
      cases hm : (jsSplit s (field.array ib)._config.delimiter).mapM ib._config.parse with
      | error e =>
        rw [hm] at h
        cases e
        exact absurd h (by simp [except_bind_error])
      | ok vs =>
        rw [hm, except_bind_ok] at h
        have h2 := okInj h
        subst h2
        have hsepchar : (field.array ib)._config.delimiter = String.mk [c] := by
          apply String.ext
          simpa using hdelim
        have htokfree : ∀ t ∈ jsSplit s (field.array ib)._config.delimiter, c ∉ t.data := by
          intro t ht
          rw [jsSplit_single s _ c hdelim] at ht
          obtain ⟨t', ht', rfl⟩ := List.mem_map.mp ht
          exact not_mem_of_mem_splitOn c s.data t' ht'
        have hforall := mapM_ok_inv _ _ vs hm
        have hitem : ∀ x ∈ vs.filter (fun w => !w.isNull),
            x.isNull = false ∧ ∃ out, ib._config.serialize x = .ok out ∧ out ≠ "" ∧
              c ∉ out.data ∧ ib._config.parse out = .ok x := by
          intro x hx
          have hxf := List.mem_filter.mp hx
          have hnn : x.isNull = false := by
            have := hxf.2
            cases hxn : x.isNull
            · rfl
            · rw [hxn] at this
              simp at this
          obtain ⟨t, ht, hpt⟩ := forall₂_mem_right _ _ _ hforall x hxf.1
          exact ⟨hnn, hgood t x (htokfree t ht) hpt hnn⟩
        by_cases hnil : vs.filter (fun w => !w.isNull) = []
        · rw [hnil]
          exact ⟨"", rfl, rfl⟩
        · obtain ⟨outs, houts⟩ := exists_forall₂_of_mem
            (fun x out => ib._config.serialize x = .ok out ∧ out ≠ "" ∧
              c ∉ out.data ∧ ib._config.parse out = .ok x)
            (vs.filter (fun w => !w.isNull)) (fun x hx => (hitem x hx).2)
          have houts_ne : outs ≠ [] := by
            intro he
            subst he
            exact hnil (List.length_eq_zero.mp (by simpa using houts.length_eq))
          obtain ⟨o0, orest, houts_cons⟩ : ∃ o0 orest, outs = o0 :: orest := by
            cases houts_cons : outs with
            | nil => exact absurd houts_cons houts_ne
            | cons a b => exact ⟨a, b, rfl⟩
          have ho0 : o0 ≠ "" := by
            have : ∀ out ∈ outs, out ≠ "" := by
              intro out hout
              obtain ⟨x, hx, hp⟩ := forall₂_mem_right _ _ _ houts out hout
              exact hp.2.1
            exact this o0 (by rw [houts_cons]; exact List.mem_cons_self _ _)
          refine ⟨jsJoin (field.array ib)._config.delimiter outs, ?_, ?_⟩
          · rw [array_serialize_eq]
            have hempty : (vs.filter (fun w => !w.isNull)).isEmpty = false := by
              cases hcase : vs.filter (fun w => !w.isNull) with
              | nil => exact absurd hcase hnil
              | cons a b => rfl
            show (if (vs.filter (fun w => !w.isNull)).isEmpty then Except.ok ""
              else do
                let outs2 ← (vs.filter (fun w => !w.isNull)).mapM ib._config.serialize
                Except.ok (jsJoin (field.array ib)._config.delimiter outs2)) = _
            rw [hempty]
            have hser : (vs.filter (fun w => !w.isNull)).mapM ib._config.serialize = .ok outs :=
              mapM_ok_of_forall₂ _ _ _ (houts.imp (fun x out hp => hp.1))
            simp only [Bool.false_eq_true, if_false]
            rw [hser, except_bind_ok]
          · rw [array_parse_eq]
            have hjne : jsJoin (field.array ib)._config.delimiter outs ≠ "" := by
              rw [houts_cons]
              exact jsJoin_ne_empty _ o0 orest ho0
            rw [if_neg hjne]
            have hofree : ∀ p ∈ outs, c ∉ p.data := by
              intro p hp
              obtain ⟨x, hx, hpp⟩ := forall₂_mem_right _ _ _ houts p hp
              exact hpp.2.2.1
            have hsplit : jsSplit (jsJoin (field.array ib)._config.delimiter outs)
                (field.array ib)._config.delimiter = outs := by
              rw [hsepchar]
              exact jsSplit_jsJoin c (String.mk [c]) rfl outs houts_ne hofree
            rw [hsplit]
            have hreparse : outs.mapM ib._config.parse = .ok (vs.filter (fun w => !w.isNull)) := by
              apply mapM_ok_of_forall₂
              exact List.Forall₂.flip (houts.imp (fun x out hp => hp.2.2.2))
            rw [hreparse, except_bind_ok]
            have hfix : (vs.filter (fun w => !w.isNull)).filter (fun w => !w.isNull)
                = vs.filter (fun w => !w.isNull) := by
              apply List.filter_eq_self.mpr
              intro x hx
              rw [(hitem x hx).1]
              rfl
            rw [hfix]

theorem goodItem_string (c : Char) : GoodItemCodec (field.string)._config c := by
  intro s v hc h hnn
  rw [string_parse_eq] at h
  have h2 := okInj h
  by_cases hs : s = ""
  · rw [if_pos hs] at h2
    subst h2
    simp [Value.isNull] at hnn
  · rw [if_neg hs] at h2
    subst h2
    exact ⟨s, string_serialize_str s, hs, hc, by rw [string_parse_eq, if_neg hs]⟩

theorem goodItem_stringLiteral (lits : List String) (c : Char) :
    GoodItemCodec (field.stringLiteral lits)._config c := by
  intro s v hc h hnn
  rw [stringLiteral_parse_eq] at h
  have h2 := okInj h
  by_cases hs : s = ""
  · rw [if_pos hs] at h2
    subst h2
    simp [Value.isNull] at hnn
  · rw [if_neg hs] at h2
    by_cases hmem : lits.contains s
    · rw [if_pos hmem] at h2
      subst h2
      exact ⟨s, stringLiteral_serialize_str lits s, hs, hc,
        by rw [stringLiteral_parse_eq, if_neg hs, if_pos hmem]⟩
    · rw [if_neg hmem] at h2
      subst h2
      simp [Value.isNull] at hnn

theorem goodItem_boolean (c : Char) (hc1 : c ∉ ("true" : String).data)
    (hc2 : c ∉ ("false" : String).data) :
    GoodItemCodec (field.boolean)._config c := by
  intro s v hc h hnn
  rw [boolean_parse_eq] at h
  have h2 := okInj h
  by_cases hs : s = ""
  · rw [if_pos hs] at h2
    subst h2
    simp [Value.isNull] at hnn
  · rw [if_neg hs] at h2
    by_cases ht : s = "true"
    · rw [if_pos ht] at h2
      subst h2
      exact ⟨"true", rfl, by decide, hc1, rfl⟩
    · rw [if_neg ht] at h2
      by_cases hf : s = "false"
      · rw [if_pos hf] at h2
        subst h2
        exact ⟨"false", rfl, by decide, hc2, rfl⟩
      · rw [if_neg hf] at h2
        subst h2
        simp [Value.isNull] at hnn

theorem goodItem_timestamp (c : Char) (hcd : ∀ d : Char, d.isDigit = true → d ≠ c)
    (hcm : c ≠ '-') : GoodItemCodec (field.timestamp)._config c := by
  intro s v hc h hnn
  rw [timestamp_parse_eq] at h
  have h2 := okInj h
  by_cases hs : s = ""
  · rw [if_pos hs] at h2
    subst h2
    simp [Value.isNull] at hnn
  · rw [if_neg hs] at h2
    cases hp : jsParseInt s with
    | none =>
      rw [hp] at h2
      subst h2
      simp [Value.isNull] at hnn
    | some t =>
      rw [hp] at h2
      have h3 : (if t.natAbs ≤ field.MAX_DATE_MS then Value.date t else Value.null) = v := h2
      by_cases hrange : t.natAbs ≤ field.MAX_DATE_MS
      · rw [if_pos hrange] at h3
        subst h3
        refine ⟨intToString t, timestamp_serialize_date t, intToString_ne_empty t, ?_, ?_⟩
        · intro hmem
          rcases mem_intToChars t c hmem with hd | hd
          · exact hcd c hd rfl
          · exact hcm hd
        · rw [timestamp_parse_eq, if_neg (intToString_ne_empty t)]
          show Except.ok (match jsParseInt (intToString t) with
            | none => Value.null
            | some u => if u.natAbs ≤ field.MAX_DATE_MS then Value.date u else Value.null)
            = Except.ok (Value.date t)
          rw [jsParseInt_intToString t]
          show Except.ok (if t.natAbs ≤ field.MAX_DATE_MS then Value.date t else Value.null)
            = Except.ok (Value.date t)
          rw [if_pos hrange]
      · rw [if_neg hrange] at h3
        subst h3
        simp [Value.isNull] at hnn

theorem goodItem_number : GoodItemCodec (field.number)._config '-' := by
  intro s v hc h hnn
  rw [number_parse_eq] at h
  have h2 := okInj h
  by_cases hs : s = ""
  · rw [if_pos hs] at h2
    subst h2
    simp [Value.isNull] at hnn
  · rw [if_neg hs] at h2
    cases hp : jsParseInt s with
    | none =>
      rw [hp] at h2
      subst h2
      simp [Value.isNull] at hnn
    | some n =>
      rw [hp] at h2
      have h3 : Value.num n = v := h2
      subst h3
      have hpos : 0 ≤ n := jsParseInt_nonneg s n hc hp
      have hnlt : ¬ n < 0 := by omega
      refine ⟨intToString n, number_serialize_num n, intToString_ne_empty n, ?_, ?_⟩
      · intro hmem
        have hchars : (intToString n).data = natToChars n.natAbs := by
          simp [intToString, intToChars, hnlt]
        rw [hchars] at hmem
        have hd := mem_natToChars_isDigit n.natAbs '-' hmem
        exact absurd hd (by decide)
      · rw [number_parse_eq, if_neg (intToString_ne_empty n), jsParseInt_intToString n]

/-- ECMA-262 `Number::toString` (radix 10) of an integral double, on the
magnitudes where the double is the exact integer and the shortest decimal
denotation of that double is the integer's own decimal expansion (every
integer below 2^53, and the exactly representable 10^21 of the
counterexample): with `s` the digit expansion stripped of trailing zeros
and `n` the total digit count, the source algorithm uses plain positional
notation when `n ≤ 21` and the exponential form `d[.ddd]e+(n-1)` when
`n > 21`.  This is where JS `String(x)` diverges from the plain-decimal
`intToString` of the unbounded-integer codec model. -/
def numberToStringJS (m : Int) : String :=
  let digits := natToChars m.natAbs
  let sign := if m < 0 then "-" else ""
  if digits.length ≤ 21 then sign ++ String.mk digits
  else
    let sDigits := (digits.reverse.dropWhile (fun c => c == '0')).reverse
    sign ++ String.mk (sDigits.take 1)
      ++ (if sDigits.length ≤ 1 then "" else "." ++ String.mk (sDigits.drop 1))
      ++ "e+" ++ String.mk (natToChars (digits.length - 1))

/-- C2 counterexample: the number codec does not satisfy round-trip
closure on its own parse image in the program.  `10^21` is in the parse
image (`parseInt` of twenty-two digits yields the exactly representable
double `1e21`), but JS `String(1e21)` is the exponential `"1e+21"`
(`numberToStringJS`, diverging from the model's plain-decimal
`intToString`), and re-parsing `"1e+21"` stops at the `e` and yields `1`,
not `10^21`. -/
theorem C2_number_exponential_counterexample :
    (field.number)._config.parse "1000000000000000000000"
      = .ok (.num 1000000000000000000000)
    ∧ numberToStringJS 1000000000000000000000 = "1e+21"
    ∧ (field.number)._config.parse "1e+21" = .ok (.num 1)
    ∧ (1 : Int) ≠ 1000000000000000000000
    ∧ numberToStringJS 1000000000000000000000 ≠ intToString 1000000000000000000000 :=
  ⟨rfl, rfl, rfl, by decide, by decide⟩

/-- Item codec goodness restricted to predicate `P` on the parsed values:
every non-`null` parse of a delimiter-free token whose value satisfies `P`
serializes to a nonempty, delimiter-free string that re-parses to the same
value. -/
def GoodItemCodecOn (P : Value → Prop) (cfg : FieldConfig) (c : Char) : Prop :=
  ∀ s v, c ∉ s.data → cfg.parse s = .ok v → v.isNull = false → P v →
    ∃ out, cfg.serialize v = .ok out ∧ out ≠ "" ∧ c ∉ out.data ∧ cfg.parse out = .ok v

theorem array_roundtrip_of_goodItemOn (P : Value → Prop) (ib : FieldBuilder) (c : Char)
    (hdelim : (field.array ib)._config.delimiter.data = [c])
    (hgood : GoodItemCodecOn P ib._config c) :
    RoundTripsAt (field.array ib)._config (field.array ib)._config.defaultValue
    ∧ ∀ s vs, (field.array ib)._config.parse s = .ok (.arr vs) → (∀ x ∈ vs, P x) →
        RoundTripsAt (field.array ib)._config (.arr vs) := by
  constructor
  · exact ⟨"", rfl, rfl⟩
  · intro s vs h hP
    rw [array_parse_eq] at h
    by_cases hs : s = ""
    · rw [if_pos hs] at h
      have h2 := okInj h
      injection h2 with h3
      subst h3
      exact ⟨"", rfl, rfl⟩
    · rw [if_neg hs] at h
      cases hm : (jsSplit s (field.array ib)._config.delimiter).mapM ib._config.parse with
      | error e =>
        rw [hm] at h
        cases e
        exact absurd h (by simp [except_bind_error])
      | ok vs0 =>
        rw [hm, except_bind_ok] at h
        have h2 := okInj h
        injection h2 with h3
        subst h3
        have hsepchar : (field.array ib)._config.delimiter = String.mk [c] := by
          apply String.ext
          simpa using hdelim
        have htokfree : ∀ t ∈ jsSplit s (field.array ib)._config.delimiter, c ∉ t.data := by
          intro t ht
          rw [jsSplit_single s _ c hdelim] at ht
          obtain ⟨t', ht', rfl⟩ := List.mem_map.mp ht
          exact not_mem_of_mem_splitOn c s.data t' ht'
        have hforall := mapM_ok_inv _ _ vs0 hm
        have hitem : ∀ x ∈ vs0.filter (fun w => !w.isNull),
            x.isNull = false ∧ ∃ out, ib._config.serialize x = .ok out ∧ out ≠ "" ∧
              c ∉ out.data ∧ ib._config.parse out = .ok x := by
          intro x hx
          have hxf := List.mem_filter.mp hx
          have hnn : x.isNull = false := by
            have := hxf.2
            cases hxn : x.isNull
            · rfl
            · rw [hxn] at this
              simp at this
          obtain ⟨t, ht, hpt⟩ := forall₂_mem_right _ _ _ hforall x hxf.1
          exact ⟨hnn, hgood t x (htokfree t ht) hpt hnn (hP x hx)⟩
        by_cases hnil : vs0.filter (fun w => !w.isNull) = []
        · rw [hnil]
          exact ⟨"", rfl, rfl⟩
        · obtain ⟨outs, houts⟩ := exists_forall₂_of_mem
            (fun x out => ib._config.serialize x = .ok out ∧ out ≠ "" ∧
              c ∉ out.data ∧ ib._config.parse out = .ok x)
            (vs0.filter (fun w => !w.isNull)) (fun x hx => (hitem x hx).2)
          have houts_ne : outs ≠ [] := by
            intro he
            subst he
            exact hnil (List.length_eq_zero.mp (by simpa using houts.length_eq))
          obtain ⟨o0, orest, houts_cons⟩ : ∃ o0 orest, outs = o0 :: orest := by
            cases houts_cons : outs with
            | nil => exact absurd houts_cons houts_ne
            | cons a b => exact ⟨a, b, rfl⟩
          have ho0 : o0 ≠ "" := by
            have : ∀ out ∈ outs, out ≠ "" := by
              intro out hout
              obtain ⟨x, hx, hp⟩ := forall₂_mem_right _ _ _ houts out hout
              exact hp.2.1
            exact this o0 (by rw [houts_cons]; exact List.mem_cons_self _ _)
          refine ⟨jsJoin (field.array ib)._config.delimiter outs, ?_, ?_⟩
          · rw [array_serialize_eq]
            have hempty : (vs0.filter (fun w => !w.isNull)).isEmpty = false := by
              cases hcase : vs0.filter (fun w => !w.isNull) with
              | nil => exact absurd hcase hnil
              | cons a b => rfl
            show (if (vs0.filter (fun w => !w.isNull)).isEmpty then Except.ok ""
              else do
                let outs2 ← (vs0.filter (fun w => !w.isNull)).mapM ib._config.serialize
                Except.ok (jsJoin (field.array ib)._config.delimiter outs2)) = _
            rw [hempty]
            have hser : (vs0.filter (fun w => !w.isNull)).mapM ib._config.serialize = .ok outs :=
              mapM_ok_of_forall₂ _ _ _ (houts.imp (fun x out hp => hp.1))
            simp only [Bool.false_eq_true, if_false]
            rw [hser, except_bind_ok]
          · rw [array_parse_eq]
            have hjne : jsJoin (field.array ib)._config.delimiter outs ≠ "" := by
              rw [houts_cons]
              exact jsJoin_ne_empty _ o0 orest ho0
            rw [if_neg hjne]
            have hofree : ∀ p ∈ outs, c ∉ p.data := by
              intro p hp
              obtain ⟨x, hx, hpp⟩ := forall₂_mem_right _ _ _ houts p hp
              exact hpp.2.2.1
            have hsplit : jsSplit (jsJoin (field.array ib)._config.delimiter outs)
                (field.array ib)._config.delimiter = outs := by
              rw [hsepchar]
              exact jsSplit_jsJoin c (String.mk [c]) rfl outs houts_ne hofree
            rw [hsplit]
            have hreparse : outs.mapM ib._config.parse
                = .ok (vs0.filter (fun w => !w.isNull)) := by
              apply mapM_ok_of_forall₂
              exact List.Forall₂.flip (houts.imp (fun x out hp => hp.2.2.2))
            rw [hreparse, except_bind_ok]
            have hfix : (vs0.filter (fun w => !w.isNull)).filter (fun w => !w.isNull)
                = vs0.filter (fun w => !w.isNull) := by
              apply List.filter_eq_self.mpr
              intro x hx
              rw [(hitem x hx).1]
              rfl
            rw [hfix]

theorem goodItemOn_number :
    GoodItemCodecOn (fun v => ∀ n, v = Value.num n → n.natAbs < 2 ^ 53)
      (field.number)._config '-' :=
  fun s v hc h hnn _ => goodItem_number s v hc h hnn

/-- C2 (amended): `parse(serialize(defaultValue))` equals the default and
round-trip closure on the parse image holds unconditionally for the
string, boolean, timestamp, stringLiteral and sort codecs and for arrays
over string, boolean, timestamp and stringLiteral items; for the number
codec — scalar or array item — closure is asserted only for parse-image
values of magnitude below `2^53`, the exactly-representable range on
which the unbounded-integer model coincides with the program's
IEEE-double arithmetic and `String()` printing.  Beyond that range the
program itself violates closure: at `1e21` JS `String()` switches to
exponential notation, which `parseInt` truncates at the `e` (see the
counterexample).  (Array fields are taken at their default delimiters,
which are modelled from the spec.) -/
theorem C2_codecs_roundtrip_amended :
    CodecRoundTripClosed (field.string)._config ∧
    (RoundTripsAt (field.number)._config (field.number)._config.defaultValue
      ∧ ∀ s v, (field.number)._config.parse s = .ok v →
          (∀ n, v = Value.num n → n.natAbs < 2 ^ 53) →
          RoundTripsAt (field.number)._config v) ∧
    CodecRoundTripClosed (field.boolean)._config ∧
    CodecRoundTripClosed (field.timestamp)._config ∧
    (∀ lits : List String, CodecRoundTripClosed (field.stringLiteral lits)._config) ∧
    CodecRoundTripClosed (field.sort)._config ∧
    CodecRoundTripClosed (field.array field.string)._config ∧
    (RoundTripsAt (field.array field.number)._config
        (field.array field.number)._config.defaultValue
      ∧ ∀ s vs, (field.array field.number)._config.parse s = .ok (.arr vs) →
          (∀ x ∈ vs, ∀ n, x = Value.num n → n.natAbs < 2 ^ 53) →
          RoundTripsAt (field.array field.number)._config (.arr vs)) ∧
    CodecRoundTripClosed (field.array field.boolean)._config ∧
    CodecRoundTripClosed (field.array field.timestamp)._config ∧
    (∀ lits : List String,
      CodecRoundTripClosed (field.array (field.stringLiteral lits))._config) :=
  ⟨string_roundtrip,
    ⟨number_roundtrip.1, fun s v h _ => number_roundtrip.2 s v h⟩,
    boolean_roundtrip, timestamp_roundtrip, stringLiteral_roundtrip, sort_roundtrip,
    array_roundtrip_of_goodItem field.string ',' rfl (goodItem_string ','),
    array_roundtrip_of_goodItemOn (fun v => ∀ n, v = Value.num n → n.natAbs < 2 ^ 53)
      field.number '-' rfl goodItemOn_number,
    array_roundtrip_of_goodItem field.boolean ',' rfl
      (goodItem_boolean ',' (by decide) (by decide)),
    array_roundtrip_of_goodItem field.timestamp ',' rfl
      (goodItem_timestamp ',' (fun d hd => (isDigit_ne_of_special d hd).2.2.1) (by decide)),
    fun lits => array_roundtrip_of_goodItem (field.stringLiteral lits) ',' rfl
      (goodItem_stringLiteral lits ',')⟩

/-- Witness for C2: the amended round-trip closure applied at concrete
parse outputs, discharging the magnitude bounds. -/
theorem C2_codecs_roundtrip_amended_witness :
    RoundTripsAt (field.number)._config (.num 42) ∧
    RoundTripsAt (field.sort)._config (.sortVal "latency" true) ∧
    RoundTripsAt (field.array field.number)._config (.arr [.num 1, .num 3]) := by
  obtain ⟨c1, c2, c3, c4, c5, c6, c7, c8, c9, c10, c11⟩ := C2_codecs_roundtrip_amended
  refine ⟨?_, ?_, ?_⟩
  · refine c2.2 "42" (.num 42) rfl ?_
    intro n hn
    injection hn with h3
    subst h3
    decide
  · exact c6.2 "latency.desc" (.sortVal "latency" true) rfl
  · refine c8.2 "1-3" [.num 1, .num 3] rfl ?_
    intro x hx n hn
    rcases List.mem_cons.mp hx with h | h
    · subst h
      injection hn with h3
      subst h3
      decide
    · rcases List.mem_cons.mp h with h2 | h2
      · subst h2
        injection hn with h3
        subst h3
        decide
      · simp at h2

theorem mapM_ok_map {α β : Type} (f : α → Except Unit β) (g : α → β)
    (hfg : ∀ a, f a = .ok (g a)) : ∀ l : List α, l.mapM f = .ok (l.map g) := by
  intro l
  induction l with
  | nil => rfl
  | cons a l ih =>
    rw [List.mapM_cons, hfg a, except_bind_ok, ih, except_bind_ok]
    rfl

/-- C5: for every array field whose item codec is a total parse function,
`parse` never throws and always returns an array value; a non-empty input
is split on the field's delimiter, each token is parsed with the item
codec, and the tokens whose item-parse yields `null` (in particular empty
tokens) are dropped; the empty string parses to the empty array; and
parsing `"ams,,gru"` with a comma delimiter and the string item codec
yields `["ams","gru"]`. -/
theorem C5_array_parse_lenient (ib : FieldBuilder) (g : String → Value)
    (hg : ∀ t, ib._config.parse t = .ok (g t)) :
    (∀ s, ∃ items, (field.array ib)._config.parse s = .ok (.arr items)) ∧
    (∀ s, s ≠ "" → (field.array ib)._config.parse s
      = .ok (.arr (((jsSplit s (field.array ib)._config.delimiter).map g).filter
          (fun v => !v.isNull)))) ∧
    ((field.array ib)._config.parse "" = .ok (.arr [])) ∧
    (((field.array field.string).delimiter ",")._config.parse "ams,,gru"
      = .ok (.arr [.str "ams", .str "gru"])) := by
  have hb : ∀ s, s ≠ "" → (field.array ib)._config.parse s
      = .ok (.arr (((jsSplit s (field.array ib)._config.delimiter).map g).filter
          (fun v => !v.isNull))) := by
    intro s hs
    rw [array_parse_eq, if_neg hs,
      mapM_ok_map ib._config.parse g hg (jsSplit s (field.array ib)._config.delimiter),
      except_bind_ok]
  refine ⟨?_, hb, rfl, rfl⟩
  intro s
  by_cases hs : s = ""
  · subst hs
    exact ⟨[], rfl⟩
  · exact ⟨_, hb s hs⟩

/-- Witness for C5: the array parse applied to the concrete lenient input. -/
theorem C5_array_parse_lenient_witness :
    (∃ items, (field.array field.string)._config.parse "ams,,gru" = .ok (.arr items)) ∧
    (field.array field.string)._config.parse "ams,,gru"
      = .ok (.arr (((jsSplit "ams,,gru" (field.array field.string)._config.delimiter).map
          (fun t => if t = "" then Value.null else Value.str t)).filter
            (fun v => !v.isNull))) := by
  have h := C5_array_parse_lenient field.string
    (fun t => if t = "" then Value.null else Value.str t) (fun t => rfl)
  exact ⟨h.1 "ams,,gru", h.2.1 "ams,,gru" (by decide)⟩

/-- C9: for every array field builder and every delimiter string `d`,
`.delimiter(d)` returns a field whose regenerated serialize joins the item
serializations with `d` (and returns the empty string on a non-array
value), whose regenerated parse splits the input on `d`, parses each token
with the item codec and drops the failing tokens, with the empty string
parsing to the captured default (the empty array); the closures capture
`d` and are untouched by later modifier calls such as `.default`; the
delimiter attribute records `d`; and the default value still round-trips
(serialize to the empty string, parse back to the empty array). -/
theorem C9_delimiter_regenerates_closures (ib : FieldBuilder) (d : String) :
    (∀ items : List Value,
      ((field.array ib).delimiter d)._config.serialize (.arr items)
        = (do
            let outs ← items.mapM ib._config.serialize
            Except.ok (jsJoin d outs))) ∧
    (((field.array ib).delimiter d)._config.serialize Value.null = .ok "") ∧
    (∀ s, s ≠ "" →
      ((field.array ib).delimiter d)._config.parse s
        = (do
            let vs ← (jsSplit s d).mapM ib._config.parse
            Except.ok (.arr (vs.filter (fun v => !v.isNull))))) ∧
    (((field.array ib).delimiter d)._config.parse "" = .ok (.arr [])) ∧
    (((field.array ib).delimiter d)._config.delimiter = d) ∧
    (∀ w, (((field.array ib).delimiter d).default w)._config.serialize
        = ((field.array ib).delimiter d)._config.serialize) ∧
    (∀ w, (((field.array ib).delimiter d).default w)._config.parse
        = ((field.array ib).delimiter d)._config.parse) ∧
    (∃ out, ((field.array ib).delimiter d)._config.serialize
        ((field.array ib).delimiter d)._config.defaultValue = .ok out ∧
      ((field.array ib).delimiter d)._config.parse out
        = .ok ((field.array ib).delimiter d)._config.defaultValue) := by
  refine ⟨fun items => rfl, rfl, ?_, rfl, rfl, fun w => rfl, fun w => rfl, ⟨"", rfl, rfl⟩⟩
  intro s hs
  show (if s = "" then Except.ok (Value.arr [])
    else do
      let vs ← (jsSplit s d).mapM ib._config.parse
      Except.ok (.arr (vs.filter (fun v => !v.isNull)))) = _
  rw [if_neg hs]

/-- Witness for C9: the regenerated parse applied at a concrete delimiter
and input. -/
theorem C9_delimiter_regenerates_closures_witness :
    ((field.array field.number).delimiter ";")._config.parse "1;x;3"
      = (do
          let vs ← (jsSplit "1;x;3" ";").mapM (field.number)._config.parse
          Except.ok (.arr (vs.filter (fun v => !v.isNull)))) :=
  (C9_delimiter_regenerates_closures field.number ";").2.2.1 "1;x;3" (by decide)

/-- C8: the sort codec serializes a descriptor as the id, the sort
delimiter, then `"desc"`/`"asc"`; the concrete descriptor
`(id latency, desc true)` serializes to `"latency.desc"` and parses back
to an equal descriptor; and any input whose id segment is missing (the
empty string, or a first split segment that is empty) parses to `null`. -/
theorem C8_sort_codec (id : String) (desc : Bool) :
    ((field.sort)._config.serialize (.sortVal id desc)
      = .ok (id ++ SORT_DELIMITER ++ (if desc then "desc" else "asc"))) ∧
    ((field.sort)._config.serialize (.sortVal "latency" true) = .ok "latency.desc") ∧
    ((field.sort)._config.parse "latency.desc" = .ok (.sortVal "latency" true)) ∧
    ((field.sort)._config.parse "" = .ok .null) ∧
    (∀ s, (jsSplit s SORT_DELIMITER).headD "" = ""
      → (field.sort)._config.parse s = .ok .null) := by
  refine ⟨sort_serialize_val id desc, rfl, rfl, rfl, ?_⟩
  intro s hid
  rw [sort_parse_eq]
  by_cases hs : s = ""
  · rw [if_pos hs]
  · rw [if_neg hs]
    show Except.ok (if (jsSplit s SORT_DELIMITER).headD "" = "" then Value.null
      else Value.sortVal ((jsSplit s SORT_DELIMITER).headD "")
        ((jsSplit s SORT_DELIMITER)[1]? == some "desc")) = Except.ok Value.null
    rw [if_pos hid]

/-- Witness for C8: the missing-id clause applied at the concrete input
`".desc"`. -/
theorem C8_sort_codec_witness :
    (field.sort)._config.parse ".desc" = .ok .null :=
  (C8_sort_codec "latency" true).2.2.2.2 ".desc" (by decide)

/-! ### Claim C6: exception handling of the pipeline operations -/

/-- A user-supplied custom codec whose serialize and parse functions both
throw, installed through the fluent `.serialize`/`.parse` modifiers. -/
def throwingField : FieldBuilder :=
  (field.string.serialize (fun _ => .error ())).parse (fun _ => .error ())

/-- C6 counterexample: with a throwing custom codec, `serializeState`,
`parseState` and `validateState` all propagate the exception to the
caller — none of them catches at the call site as the claim states. -/
theorem C6_pipeline_catch_counterexample :
    serializeState [("boom", throwingField)] [("boom", .str "x")] = .error () ∧
    parseState [("boom", throwingField)] [("boom", RawVal.str "x")] = .error () ∧
    validateState [("boom", throwingField)] [("boom", .str "x")] = .error () :=
  ⟨rfl, rfl, rfl⟩

/-- C6 (amended): only the text parser's parse and serialize catch a
throwing user codec at the call site and treat it as no value produced —
the field is omitted from the result; `serializeState`, `parseState` and
`validateState` propagate the exception to their caller. -/
theorem C6_only_text_parser_catches :
    (∀ v : Value, serializeState [("boom", throwingField)] [("boom", v)] = .error ()) ∧
    (∀ s : String, parseState [("boom", throwingField)] [("boom", RawVal.str s)] = .error ()) ∧
    (∀ v : Value, validateState [("boom", throwingField)] [("boom", v)] = .error ()) ∧
    (createTextParserParse [("boom", throwingField)] [] "boom:x" = []) ∧
    (∀ s : String, createTextParserSerialize [("boom", throwingField)] [("boom", .str s)] = "") :=
  ⟨fun _ => rfl, fun _ => rfl, fun _ => rfl, rfl, fun _ => rfl⟩

/-! ### A generic per-schema-key write fold (shared by C1 and C10) -/

/-- Fold over the schema entries, writing `W kv` (when present) at key
`kv.1` into the accumulator. -/
def assocWriteFold (W : (String × FieldBuilder) → Option Value) (σ : Schema) (init : Obj) : Obj :=
  σ.foldl (fun acc kv =>
    match W kv with
    | none => acc
    | some pv => setEntry acc kv.1 pv) init

theorem assocWriteFold_cons (W : (String × FieldBuilder) → Option Value)
    (kv : String × FieldBuilder) (σ : Schema) (init : Obj) :
    assocWriteFold W (kv :: σ) init
      = assocWriteFold W σ (match W kv with
          | none => init
          | some pv => setEntry init kv.1 pv) := rfl

theorem assocWriteFold_not_mem (W : (String × FieldBuilder) → Option Value) (σ : Schema)
    (init : Obj) (q : String) (h : q ∉ σ.map Prod.fst) :
    getEntry (assocWriteFold W σ init) q = getEntry init q := by
  induction σ generalizing init with
  | nil => rfl
  | cons kv σ' ih =>
    simp only [List.map_cons, List.mem_cons, not_or] at h
    rw [assocWriteFold_cons, ih _ h.2]
    cases W kv with
    | none => rfl
    | some pv => exact getEntry_setEntry_ne _ _ _ _ h.1

theorem assocWriteFold_mem_nodup (W : (String × FieldBuilder) → Option Value) (σ : Schema)
    (init : Obj) (q : String) (fq : FieldBuilder)
    (hnd : (σ.map Prod.fst).Nodup) (hmem : (q, fq) ∈ σ) :
    getEntry (assocWriteFold W σ init) q = (W (q, fq)).or (getEntry init q) := by
  induction σ generalizing init with
  | nil => simp at hmem
  | cons kv σ' ih =>
    simp only [List.map_cons, List.nodup_cons] at hnd
    rcases List.mem_cons.mp hmem with h | h
    · subst h
      rw [assocWriteFold_cons, assocWriteFold_not_mem _ _ _ _ hnd.1]
      cases hw : W (q, fq) with
      | none => simp [Option.or]
      | some pv => simp [Option.or, getEntry_setEntry_self]
    · have hne : kv.1 ≠ q := by
        intro he
        exact hnd.1 (he ▸ List.mem_map.mpr ⟨(q, fq), h, rfl⟩)
      have hstep : getEntry (match W kv with
          | none => init
          | some pv => setEntry init kv.1 pv) q = getEntry init q := by
        cases W kv with
        | none => rfl
        | some pv => exact getEntry_setEntry_ne _ _ _ _ (fun hh => hne hh.symm)
      rw [assocWriteFold_cons, ih _ hnd.2 h, hstep]

theorem assocWriteFold_map_fst (W : (String × FieldBuilder) → Option Value) (σ : Schema)
    (init : Obj) (hkeys : ∀ kv ∈ σ, kv.1 ∈ init.map Prod.fst) :
    (assocWriteFold W σ init).map Prod.fst = init.map Prod.fst := by
  induction σ generalizing init with
  | nil => rfl
  | cons kv σ' ih =>
    have hk : kv.1 ∈ init.map Prod.fst := hkeys kv (List.mem_cons_self _ _)
    have hstep : (match W kv with
        | none => init
        | some pv => setEntry init kv.1 pv).map Prod.fst = init.map Prod.fst := by
      cases W kv with
      | none => rfl
      | some pv => exact map_fst_setEntry_of_mem _ _ _ hk
    rw [assocWriteFold_cons,
      ih _ (fun kv' hkv' => by rw [hstep]; exact hkeys kv' (List.mem_cons.mpr (Or.inr hkv'))),
      hstep]

theorem getSchemaDefaults_map_fst (σ : Schema) :
    (getSchemaDefaults σ).map Prod.fst = σ.map Prod.fst := by
  induction σ with
  | nil => rfl
  | cons kv σ' ih =>
    show kv.1 :: (getSchemaDefaults σ').map Prod.fst = kv.1 :: σ'.map Prod.fst
    rw [ih]

theorem getEntry_getSchemaDefaults (σ : Schema) (k : String) (fb : FieldBuilder)
    (hmem : (k, fb) ∈ σ) (hnd : (σ.map Prod.fst).Nodup) :
    getEntry (getSchemaDefaults σ) k = some fb._config.defaultValue := by
  induction σ with
  | nil => simp at hmem
  | cons kv σ' ih =>
    simp only [List.map_cons, List.nodup_cons] at hnd
    rcases List.mem_cons.mp hmem with h | h
    · subst h
      show (if k = k then some fb._config.defaultValue else _) = _
      rw [if_pos rfl]
    · have hk : ¬ kv.1 = k := fun he => hnd.1 (he ▸ List.mem_map.mpr ⟨(k, fb), h, rfl⟩)
      show (if kv.1 = k then some kv.2._config.defaultValue
        else getEntry (getSchemaDefaults σ') k) = _
      rw [if_neg hk]
      exact ih h hnd.2

/-! ### Characterization of `validateState` and `parseState` via the fold -/

/-- The per-key effect of `validateState` on candidate `state`. -/
def validateW (state : Obj) (kv : String × FieldBuilder) : Option Value :=
  match getEntry state kv.1 with
  | none => none
  | some v =>
    match kv.2._config.serialize v with
    | .error _ => none
    | .ok out =>
      match kv.2._config.parse out with
      | .error _ => none
      | .ok pv => if pv.isNull then none else some pv

theorem validateState_foldlM_eq (state : Obj) (σ : Schema) :
    ∀ (init : Obj),
      (∀ kv ∈ σ, ∀ v, getEntry state kv.1 = some v →
        ∃ out pv, kv.2._config.serialize v = .ok out ∧ kv.2._config.parse out = .ok pv) →
      σ.foldlM (validateStep state) init = .ok (assocWriteFold (validateW state) σ init) := by
  induction σ with
  | nil =>
    intro init _
    rfl
  | cons kv σ' ih =>
    intro init h
    rw [List.foldlM_cons]
    cases hlook : getEntry state kv.1 with
    | none =>
      have hstep : validateStep state init kv = .ok init := by
        simp only [validateStep, hlook]
      have hw : validateW state kv = none := by
        simp only [validateW, hlook]
      rw [hstep, except_bind_ok, assocWriteFold_cons, hw,
        ih init (fun kv' hkv' => h kv' (List.mem_cons.mpr (Or.inr hkv')))]
    | some v =>
      obtain ⟨out, pv, hser, hpar⟩ := h kv (List.mem_cons_self _ _) v hlook
      have hstep : validateStep state init kv
          = .ok (if pv.isNull then init else setEntry init kv.1 pv) := by
        simp only [validateStep, hlook, hser, except_bind_ok, hpar]
      have hw : validateW state kv = if pv.isNull then none else some pv := by
        simp only [validateW, hlook, hser, hpar]
      rw [hstep, except_bind_ok, assocWriteFold_cons, hw,
        ih _ (fun kv' hkv' => h kv' (List.mem_cons.mpr (Or.inr hkv')))]
      by_cases hn : pv.isNull
      · rw [if_pos hn, if_pos hn]
      · rw [if_neg hn, if_neg hn]

/-- The per-key effect of `parseState` on input map `m`. -/
def parseW (m : RawMap) (kv : String × FieldBuilder) : Option Value :=
  match getEntry m kv.1 with
  | none => none
  | some raw =>
    match kv.2._config.parse (rawStrValue raw) with
    | .error _ => none
    | .ok pv => if pv.isNull then none else some pv

theorem parseState_foldlM_inv (m : RawMap) (σ : Schema) :
    ∀ (init r : Obj), σ.foldlM (parseStep m) init = .ok r →
      r = assocWriteFold (parseW m) σ init := by
  induction σ with
  | nil =>
    intro init r h
    exact (okInj h).symm
  | cons kv σ' ih =>
    intro init r h
    rw [List.foldlM_cons] at h
    cases hlook : getEntry m kv.1 with
    | none =>
      have hstep : parseStep m init kv = .ok init := by
        simp only [parseStep, hlook]
      rw [hstep, except_bind_ok] at h
      have hw : parseW m kv = none := by
        simp only [parseW, hlook]
      rw [assocWriteFold_cons, hw]
      exact ih init r h
    | some raw =>
      cases hp : kv.2._config.parse (rawStrValue raw) with
      | error e =>
        have hstep : parseStep m init kv = .error () := by
          simp only [parseStep, hlook]
          rw [hp]
          cases e
          rfl
        rw [hstep, except_bind_error] at h
        exact absurd h (by simp)
      | ok pv =>
        have hstep : parseStep m init kv
            = .ok (if pv.isNull then init else setEntry init kv.1 pv) := by
          simp only [parseStep, hlook]
          rw [hp, except_bind_ok]
        rw [hstep, except_bind_ok] at h
        have hw : parseW m kv = if pv.isNull then none else some pv := by
          simp only [parseW, hlook]
          rw [hp]
        rw [assocWriteFold_cons, hw]
        by_cases hn : pv.isNull
        · rw [if_pos hn]
          rw [if_pos hn] at h
          exact ih _ _ h
        · rw [if_neg hn]
          rw [if_neg hn] at h
          exact ih _ _ h

theorem parseState_ok_inv (σ : Schema) (m : RawMap) (r : Obj)
    (h : parseState σ m = .ok r) : r = assocWriteFold (parseW m) σ [] :=
  parseState_foldlM_inv m σ [] r h

theorem parseState_congr_aux (m m' : RawMap) (σ : Schema) :
    ∀ init, (∀ kv ∈ σ, (getEntry m kv.1).map rawStrValue
        = (getEntry m' kv.1).map rawStrValue) →
      σ.foldlM (parseStep m) init = σ.foldlM (parseStep m') init := by
  induction σ with
  | nil =>
    intro init _
    rfl
  | cons kv σ'' ih =>
    intro init h'
    rw [List.foldlM_cons, List.foldlM_cons]
    have hk := h' kv (List.mem_cons_self _ _)
    have hstep : parseStep m init kv = parseStep m' init kv := by
      cases h1 : getEntry m kv.1 with
      | none =>
        cases h2 : getEntry m' kv.1 with
        | none => simp [parseStep, h1, h2]
        | some r2 =>
          rw [h1, h2] at hk
          simp at hk
      | some r1 =>
        cases h2 : getEntry m' kv.1 with
        | none =>
          rw [h1, h2] at hk
          simp at hk
        | some r2 =>
          rw [h1, h2] at hk
          have hs : rawStrValue r1 = rawStrValue r2 := by simpa using hk
          simp [parseStep, h1, h2, hs]
    rw [hstep]
    cases hres : parseStep m' init kv with
    | error e =>
      cases e
      rw [except_bind_error, except_bind_error]
    | ok b =>
      rw [except_bind_ok, except_bind_ok]
      exact ih b (fun kv' hkv' => h' kv' (List.mem_cons.mpr (Or.inr hkv')))

/-- C1 (amended): for every schema with distinct keys and every input
object whose present values all serialize-then-parse without throwing,
`validateState` returns a state whose keys are exactly the schema's keys
in schema order: a present key whose round trip yields a non-`null` value
holds the round-tripped value, a present key whose round trip yields
`null` falls back to the schema default, an absent key holds the schema
default, and keys of the input outside the schema do not appear. -/
theorem C1_validateState_amended (σ : Schema) (state : Obj)
    (hnd : (σ.map Prod.fst).Nodup)
    (hrt : ∀ kv ∈ σ, ∀ v, getEntry state kv.1 = some v →
      ∃ out pv, kv.2._config.serialize v = .ok out ∧ kv.2._config.parse out = .ok pv) :
    ∃ r, validateState σ state = .ok r ∧
      r.map Prod.fst = σ.map Prod.fst ∧
      (∀ k fb, (k, fb) ∈ σ → getEntry state k = none →
        getEntry r k = some fb._config.defaultValue) ∧
      (∀ k fb v out pv, (k, fb) ∈ σ → getEntry state k = some v →
        fb._config.serialize v = .ok out → fb._config.parse out = .ok pv →
        getEntry r k = some (if pv.isNull then fb._config.defaultValue else pv)) := by
  refine ⟨assocWriteFold (validateW state) σ (getSchemaDefaults σ),
    validateState_foldlM_eq state σ (getSchemaDefaults σ) hrt, ?_, ?_, ?_⟩
  · have h1 := assocWriteFold_map_fst (validateW state) σ (getSchemaDefaults σ)
      (fun kv hkv => by
        rw [getSchemaDefaults_map_fst]
        exact List.mem_map.mpr ⟨kv, hkv, rfl⟩)
    rw [h1, getSchemaDefaults_map_fst]
  · intro k fb hmem hnone
    rw [assocWriteFold_mem_nodup (validateW state) σ _ k fb hnd hmem]
    have hw : validateW state (k, fb) = none := by
      simp only [validateW, hnone]
    rw [hw, getEntry_getSchemaDefaults σ k fb hmem hnd]
    rfl
  · intro k fb v out pv hmem hsv hser hpar
    rw [assocWriteFold_mem_nodup (validateW state) σ _ k fb hnd hmem]
    have hw : validateW state (k, fb) = if pv.isNull then none else some pv := by
      simp only [validateW, hsv, hser, hpar]
    rw [hw, getEntry_getSchemaDefaults σ k fb hmem hnd]
    by_cases hn : pv.isNull
    · rw [if_pos hn, if_pos hn]
      rfl
    · rw [if_neg hn, if_neg hn]
      rfl

/-- C1 counterexample: the claim as stated fails — with a timestamp field,
`validateState` on the object mapping `ts` to the number `42` throws
(`value.getTime()` is a `TypeError` on a non-`Date`) instead of returning
a state with the schema's keys. -/
theorem C1_validateState_counterexample :
    validateState [("ts", field.timestamp)] [("ts", Value.num 42)] = .error () := rfl

/-- Witness for C1 (amended) at a concrete schema and a concrete corrupt
input object. -/
theorem C1_validateState_amended_witness :
    ∃ r, validateState
        [("host", field.string), ("level", field.array (field.stringLiteral ["error", "warn"]))]
        [("level", Value.str "nope"), ("junk", Value.num 1)] = .ok r ∧
      r.map Prod.fst = ["host", "level"] ∧
      (∀ k fb, (k, fb) ∈ ([("host", field.string),
          ("level", field.array (field.stringLiteral ["error", "warn"]))] : Schema) →
        getEntry [("level", Value.str "nope"), ("junk", Value.num 1)] k = none →
        getEntry r k = some fb._config.defaultValue) ∧
      (∀ k fb v out pv, (k, fb) ∈ ([("host", field.string),
          ("level", field.array (field.stringLiteral ["error", "warn"]))] : Schema) →
        getEntry [("level", Value.str "nope"), ("junk", Value.num 1)] k = some v →
        fb._config.serialize v = .ok out → fb._config.parse out = .ok pv →
        getEntry r k = some (if pv.isNull then fb._config.defaultValue else pv)) := by
  have h := C1_validateState_amended
    [("host", field.string), ("level", field.array (field.stringLiteral ["error", "warn"]))]
    [("level", Value.str "nope"), ("junk", Value.num 1)]
    (by decide)
    (by
      intro kv hkv v hv
      rcases List.mem_cons.mp hkv with hh | hh
      · subst hh
        simp [getEntry] at hv
      · rcases List.mem_cons.mp hh with hh2 | hh2
        · subst hh2
          have hv2 : Value.str "nope" = v := by simpa [getEntry] using hv
          subst hv2
          exact ⟨"", Value.arr [], rfl, rfl⟩
        · simp at hh2)
  exact h

/-- C10: when the raw value for a schema key is a string array, `parseState`
joins the array with a comma before invoking the field's parse: replacing
the array by the comma-joined string leaves the whole result unchanged, and
for a schema with distinct keys the entry produced for that key is exactly
the non-`null` parse of the comma-joined string — regardless of the field's
configured delimiter. -/
theorem C10_parseState_joins_arrays (σ : Schema) (m : RawMap) (k : String) (xs : List String) :
    (getEntry m k = some (RawVal.list xs) →
      parseState σ m = parseState σ (setEntry m k (RawVal.str (jsJoin "," xs)))) ∧
    (∀ fb r pv, (σ.map Prod.fst).Nodup → (k, fb) ∈ σ →
      getEntry m k = some (RawVal.list xs) →
      parseState σ m = .ok r →
      fb._config.parse (jsJoin "," xs) = .ok pv →
      getEntry r k = if pv.isNull then none else some pv) := by
  constructor
  · intro hk
    apply parseState_congr_aux m (setEntry m k (RawVal.str (jsJoin "," xs))) σ []
    intro kv hkv
    by_cases hq : kv.1 = k
    · rw [hq, hk, getEntry_setEntry_self]
      rfl
    · rw [getEntry_setEntry_ne m k kv.1 _ hq]
  · intro fb r pv hnd hmem hk hok hpv
    have hr := parseState_ok_inv σ m r hok
    subst hr
    rw [assocWriteFold_mem_nodup (parseW m) σ [] k fb hnd hmem]
    have hw : parseW m (k, fb) = if pv.isNull then none else some pv := by
      simp only [parseW, hk, rawStrValue, hpv]
    rw [hw]
    by_cases hn : pv.isNull
    · rw [if_pos hn]
      rfl
    · rw [if_neg hn]
      rfl

/-- Witness for C10 at a concrete schema and a repeated URL parameter. -/
theorem C10_parseState_joins_arrays_witness :
    (parseState [("regions", field.array field.string)]
        [("regions", RawVal.list ["ams", "gru"])]
      = parseState [("regions", field.array field.string)]
        (setEntry [("regions", RawVal.list ["ams", "gru"])] "regions"
          (RawVal.str (jsJoin "," ["ams", "gru"])))) ∧
    (getEntry [("regions", Value.arr [Value.str "ams", Value.str "gru"])] "regions"
      = some (Value.arr [Value.str "ams", Value.str "gru"])) := by
  have h := C10_parseState_joins_arrays [("regions", field.array field.string)]
    [("regions", RawVal.list ["ams", "gru"])] "regions" ["ams", "gru"]
  constructor
  · exact h.1 rfl
  · have h2 := h.2 (field.array field.string)
      [("regions", Value.arr [Value.str "ams", Value.str "gru"])]
      (Value.arr [Value.str "ams", Value.str "gru"])
      (by decide) (List.mem_singleton.mpr rfl) rfl rfl rfl
    simpa using h2

/-! ### Namespaced slice keys are pairwise distinct per table -/

theorem data_append (a b : String) : (a ++ b).data = a.data ++ b.data := rfl

theorem slice_state_ne_paused (t : String) :
    (getFilterSliceKeys t).state ≠ (getFilterSliceKeys t).paused := by
  intro he
  have hlen := congrArg (fun s : String => s.data.length) he
  simp only [getFilterSliceKeys, data_append, List.length_append] at hlen
  have h7 : ("_paused" : String).data.length = 7 := rfl
  rw [h7] at hlen
  omega

theorem slice_state_ne_pending (t : String) :
    (getFilterSliceKeys t).state ≠ (getFilterSliceKeys t).pending := by
  intro he
  have hlen := congrArg (fun s : String => s.data.length) he
  simp only [getFilterSliceKeys, data_append, List.length_append] at hlen
  have h8 : ("_pending" : String).data.length = 8 := rfl
  rw [h8] at hlen
  omega

theorem slice_paused_ne_pending (t : String) :
    (getFilterSliceKeys t).paused ≠ (getFilterSliceKeys t).pending := by
  intro he
  have hlen := congrArg (fun s : String => s.data.length) he
  simp only [getFilterSliceKeys, data_append, List.length_append] at hlen
  have h7 : ("_paused" : String).data.length = 7 := rfl
  have h8 : ("_pending" : String).data.length = 8 := rfl
  rw [h7, h8] at hlen
  omega

theorem getEntry_of_readS (store : Store) (k : String) (sv : SVal) (hne : sv ≠ .missing)
    (h : readS store k = sv) : getEntry store k = some sv := by
  unfold readS at h
  cases hg : getEntry store k with
  | none =>
    rw [hg] at h
    exact absurd h.symm (by simpa using hne)
  | some w =>
    rw [hg] at h
    cases h
    rfl

/-- Every adapter call on table `t` leaves every store slot outside `t`'s
three state keys untouched. -/
theorem applyOp_readS_other (σ : Schema) (t : String) (op : FilterOp) (store : Store) (q : String)
    (h1 : q ≠ (getFilterSliceKeys t).state)
    (h2 : q ≠ (getFilterSliceKeys t).paused)
    (h3 : q ≠ (getFilterSliceKeys t).pending) :
    readS (applyOp σ t store op) q = readS store q := by
  cases op with
  | setState p =>
    show readS (setFiltersAction t p store) q = readS store q
    unfold setFiltersAction
    by_cases hp : truthy (readS store (getFilterSliceKeys t).paused)
    · rw [if_pos hp]
      unfold readS
      rw [getEntry_setEntry_ne _ _ _ _ h3]
    · rw [if_neg hp]
      unfold readS
      rw [getEntry_setEntry_ne _ _ _ _ h1]
  | setField k v =>
    show readS (setFiltersAction t [(k, v)] store) q = readS store q
    unfold setFiltersAction
    by_cases hp : truthy (readS store (getFilterSliceKeys t).paused)
    · rw [if_pos hp]
      unfold readS
      rw [getEntry_setEntry_ne _ _ _ _ h3]
    · rw [if_neg hp]
      unfold readS
      rw [getEntry_setEntry_ne _ _ _ _ h1]
  | reset fs =>
    show readS (resetFiltersAction σ t fs store) q = readS store q
    unfold resetFiltersAction
    cases fs with
    | some fields =>
      unfold readS
      rw [getEntry_setEntry_ne _ _ _ _ h1]
    | none =>
      unfold readS
      rw [getEntry_setEntry_ne _ _ _ _ h1]
  | pause =>
    show readS (pauseFiltersAction t store) q = readS store q
    unfold pauseFiltersAction readS
    rw [getEntry_setEntry_ne _ _ _ _ h2]
  | resume =>
    show readS (resumeFiltersAction t store) q = readS store q
    unfold resumeFiltersAction
    by_cases hp : truthy (readS store (getFilterSliceKeys t).pending)
    · rw [if_pos hp]
      unfold readS
      rw [getEntry_setEntry_ne _ _ _ _ h1, getEntry_setEntry_ne _ _ _ _ h3,
        getEntry_setEntry_ne _ _ _ _ h2]
    · rw [if_neg hp]
      unfold readS
      rw [getEntry_setEntry_ne _ _ _ _ h3, getEntry_setEntry_ne _ _ _ _ h2]

theorem applyOps_readS_other (σ : Schema) (t : String) (ops : List FilterOp) (store : Store)
    (q : String)
    (h1 : q ≠ (getFilterSliceKeys t).state)
    (h2 : q ≠ (getFilterSliceKeys t).paused)
    (h3 : q ≠ (getFilterSliceKeys t).pending) :
    readS (applyOps σ t store ops) q = readS store q := by
  induction ops generalizing store with
  | nil => rfl
  | cons op ops ih =>
    show readS (applyOps σ t (applyOp σ t store op) ops) q = readS store q
    rw [ih (applyOp σ t store op), applyOp_readS_other σ t op store q h1 h2 h3]

/-- C4: for two filter slices over the same store with table ids "a" and
"b", any sequence of setState/setField/reset/pause/resume calls through
one adapter leaves the filter state, paused flag and pending delta
observed through the other adapter unchanged. -/
theorem C4_multi_table_noninterference (σa σb : Schema) (store : Store)
    (opsA opsB : List FilterOp) :
    observeSlice "b" (applyOps σa "a" store opsA) = observeSlice "b" store
    ∧ observeSlice "a" (applyOps σb "b" store opsB) = observeSlice "a" store := by
  constructor
  · show (readS (applyOps σa "a" store opsA) ((getFilterSliceKeys "b").state),
        readS (applyOps σa "a" store opsA) ((getFilterSliceKeys "b").paused),
        readS (applyOps σa "a" store opsA) ((getFilterSliceKeys "b").pending))
      = (readS store ((getFilterSliceKeys "b").state),
        readS store ((getFilterSliceKeys "b").paused),
        readS store ((getFilterSliceKeys "b").pending))
    rw [applyOps_readS_other σa "a" opsA store ((getFilterSliceKeys "b").state)
        (by decide) (by decide) (by decide),
      applyOps_readS_other σa "a" opsA store ((getFilterSliceKeys "b").paused)
        (by decide) (by decide) (by decide),
      applyOps_readS_other σa "a" opsA store ((getFilterSliceKeys "b").pending)
        (by decide) (by decide) (by decide)]
  · show (readS (applyOps σb "b" store opsB) ((getFilterSliceKeys "a").state),
        readS (applyOps σb "b" store opsB) ((getFilterSliceKeys "a").paused),
        readS (applyOps σb "b" store opsB) ((getFilterSliceKeys "a").pending))
      = (readS store ((getFilterSliceKeys "a").state),
        readS store ((getFilterSliceKeys "a").paused),
        readS store ((getFilterSliceKeys "a").pending))
    rw [applyOps_readS_other σb "b" opsB store ((getFilterSliceKeys "a").state)
        (by decide) (by decide) (by decide),
      applyOps_readS_other σb "b" opsB store ((getFilterSliceKeys "a").paused)
        (by decide) (by decide) (by decide),
      applyOps_readS_other σb "b" opsB store ((getFilterSliceKeys "a").pending)
        (by decide) (by decide) (by decide)]

/-! ### Branch lemmas for the pause machinery -/

theorem setFiltersAction_paused (t : String) (p : Obj) (store : Store)
    (hp : truthy (readS store (getFilterSliceKeys t).paused) = true) :
    setFiltersAction t p store
      = setEntry store (getFilterSliceKeys t).pending
          (.obj (mergeObj (spreadObj (readS store (getFilterSliceKeys t).pending)) p)) := by
  show (if truthy (readS store (getFilterSliceKeys t).paused) then
      setEntry store (getFilterSliceKeys t).pending
        (.obj (mergeObj (spreadObj (readS store (getFilterSliceKeys t).pending)) p))
    else
      setEntry store (getFilterSliceKeys t).state
        (.obj (mergeObj (spreadObj (readS store (getFilterSliceKeys t).state)) p)))
    = setEntry store (getFilterSliceKeys t).pending
        (.obj (mergeObj (spreadObj (readS store (getFilterSliceKeys t).pending)) p))
  rw [if_pos hp]

theorem setFiltersAction_active (t : String) (p : Obj) (store : Store)
    (hp : truthy (readS store (getFilterSliceKeys t).paused) = false) :
    setFiltersAction t p store
      = setEntry store (getFilterSliceKeys t).state
          (.obj (mergeObj (spreadObj (readS store (getFilterSliceKeys t).state)) p)) := by
  show (if truthy (readS store (getFilterSliceKeys t).paused) then
      setEntry store (getFilterSliceKeys t).pending
        (.obj (mergeObj (spreadObj (readS store (getFilterSliceKeys t).pending)) p))
    else
      setEntry store (getFilterSliceKeys t).state
        (.obj (mergeObj (spreadObj (readS store (getFilterSliceKeys t).state)) p)))
    = setEntry store (getFilterSliceKeys t).state
        (.obj (mergeObj (spreadObj (readS store (getFilterSliceKeys t).state)) p))
  rw [if_neg (by simp [hp])]

theorem resumeFiltersAction_pending (t : String) (store : Store)
    (hp : truthy (readS store (getFilterSliceKeys t).pending) = true) :
    resumeFiltersAction t store
      = setEntry (setEntry (setEntry store (getFilterSliceKeys t).paused (.bool false))
          (getFilterSliceKeys t).pending SVal.null) (getFilterSliceKeys t).state
          (.obj (mergeObj (spreadObj (readS store (getFilterSliceKeys t).state))
            (spreadObj (readS store (getFilterSliceKeys t).pending)))) := by
  show (if truthy (readS store (getFilterSliceKeys t).pending) then
      setEntry (setEntry (setEntry store (getFilterSliceKeys t).paused (.bool false))
        (getFilterSliceKeys t).pending SVal.null) (getFilterSliceKeys t).state
        (.obj (mergeObj (spreadObj (readS store (getFilterSliceKeys t).state))
          (spreadObj (readS store (getFilterSliceKeys t).pending))))
    else setEntry (setEntry store (getFilterSliceKeys t).paused (.bool false))
      (getFilterSliceKeys t).pending SVal.null) = _
  rw [if_pos hp]

theorem resumeFiltersAction_nopending (t : String) (store : Store)
    (hp : truthy (readS store (getFilterSliceKeys t).pending) = false) :
    resumeFiltersAction t store
      = setEntry (setEntry store (getFilterSliceKeys t).paused (.bool false))
          (getFilterSliceKeys t).pending SVal.null := by
  show (if truthy (readS store (getFilterSliceKeys t).pending) then
      setEntry (setEntry (setEntry store (getFilterSliceKeys t).paused (.bool false))
        (getFilterSliceKeys t).pending SVal.null) (getFilterSliceKeys t).state
        (.obj (mergeObj (spreadObj (readS store (getFilterSliceKeys t).state))
          (spreadObj (readS store (getFilterSliceKeys t).pending))))
    else setEntry (setEntry store (getFilterSliceKeys t).paused (.bool false))
      (getFilterSliceKeys t).pending SVal.null) = _
  rw [if_neg (by simp [hp])]

theorem nuqsSetState_paused (p : Obj) (m : NuqsAdapterModel) (hp : m.paused = true) :
    nuqsSetState p m = { m with pending := some (mergeObj (m.pending.getD []) p) } := by
  unfold nuqsSetState
  rw [if_pos hp]

theorem nuqsSetState_active (p : Obj) (m : NuqsAdapterModel) (hp : m.paused = false) :
    nuqsSetState p m = { m with urlState := mergeObj m.urlState p } := by
  unfold nuqsSetState
  rw [if_neg (by simp [hp])]

/-- C3: for both adapters, pause() moves Active→Paused (no effect when
already Paused); while Paused every setState/setField merges its keys into
the pending delta (last-write-wins per key) and leaves the snapshot state
unchanged; resume() moves back to Active and applies a pending delta as
one single setState call, then clears it; resume() while already Active
(no pending delta) has no effect. -/
theorem C3_pause_resume_buffering (σ : Schema) (t : String) (store : Store) (p : Obj)
    (k : String) (v : Value) (m : NuqsAdapterModel) :
    (readS (applyOp σ t store .pause) (getFilterSliceKeys t).paused = .bool true)
    ∧ (readS store (getFilterSliceKeys t).paused = .bool true →
        applyOp σ t store .pause = store)
    ∧ (truthy (readS store (getFilterSliceKeys t).paused) = true →
        readS (applyOp σ t store (.setState p)) (getFilterSliceKeys t).state
          = readS store (getFilterSliceKeys t).state
        ∧ zustandSnapshotState σ t (applyOp σ t store (.setState p))
          = zustandSnapshotState σ t store
        ∧ readS (applyOp σ t store (.setState p)) (getFilterSliceKeys t).pending
          = .obj (mergeObj (spreadObj (readS store (getFilterSliceKeys t).pending)) p))
    ∧ (applyOp σ t store (.setField k v) = applyOp σ t store (.setState [(k, v)]))
    ∧ ((p.map Prod.fst).Nodup →
        ∀ q, getEntry (mergeObj (spreadObj (readS store (getFilterSliceKeys t).pending)) p) q
          = (getEntry p q).or (getEntry (spreadObj (readS store (getFilterSliceKeys t).pending)) q))
    ∧ (truthy (readS store (getFilterSliceKeys t).pending) = true →
        applyOp σ t store .resume
          = setFiltersAction t (spreadObj (readS store (getFilterSliceKeys t).pending))
              (setEntry (setEntry store (getFilterSliceKeys t).paused (.bool false))
                (getFilterSliceKeys t).pending SVal.null)
        ∧ readS (applyOp σ t store .resume) (getFilterSliceKeys t).paused = .bool false
        ∧ readS (applyOp σ t store .resume) (getFilterSliceKeys t).pending = SVal.null)
    ∧ (readS store (getFilterSliceKeys t).paused = .bool false →
        readS store (getFilterSliceKeys t).pending = SVal.null →
        applyOp σ t store .resume = store)
    ∧ ((nuqsPause m).paused = true)
    ∧ (m.paused = true → nuqsPause m = m)
    ∧ (m.paused = true →
        (nuqsSetState p m).urlState = m.urlState
        ∧ (nuqsSetState p m).pending = some (mergeObj (m.pending.getD []) p))
    ∧ (nuqsSetField k v m = nuqsSetState [(k, v)] m)
    ∧ (∀ q0, m.pending = some q0 →
        nuqsResume m = { nuqsSetState q0 { m with paused := false } with pending := none }
        ∧ (nuqsResume m).paused = false
        ∧ (nuqsResume m).pending = none)
    ∧ (m.paused = false → m.pending = none → nuqsResume m = m) := by
  refine ⟨?_, ?_, ?_, ?_, ?_, ?_, ?_, ?_, ?_, ?_, ?_, ?_, ?_⟩
  · show readS (pauseFiltersAction t store) (getFilterSliceKeys t).paused = .bool true
    unfold pauseFiltersAction readS
    rw [getEntry_setEntry_self]
    rfl
  · intro h
    show pauseFiltersAction t store = store
    unfold pauseFiltersAction
    exact setEntry_eq_of_getEntry store _ _
      (getEntry_of_readS store _ _ (by intro hh; exact SVal.noConfusion hh) h)
  · intro hp
    refine ⟨?_, ?_, ?_⟩
    · show readS (setFiltersAction t p store) (getFilterSliceKeys t).state
        = readS store (getFilterSliceKeys t).state
      rw [setFiltersAction_paused t p store hp]
      unfold readS
      rw [getEntry_setEntry_ne _ _ _ _ (slice_state_ne_pending t)]
    · show zustandSnapshotState σ t (setFiltersAction t p store) = zustandSnapshotState σ t store
      rw [setFiltersAction_paused t p store hp]
      unfold zustandSnapshotState readS
      rw [getEntry_setEntry_ne _ _ _ _ (slice_state_ne_pending t)]
    · show readS (setFiltersAction t p store) (getFilterSliceKeys t).pending = _
      rw [setFiltersAction_paused t p store hp]
      unfold readS
      rw [getEntry_setEntry_self]
      rfl
  · rfl
  · intro hnd q
    exact getEntry_mergeObj_nodup (spreadObj (readS store (getFilterSliceKeys t).pending)) p q hnd
  · intro hp
    refine ⟨?_, ?_, ?_⟩
    · show resumeFiltersAction t store = _
      rw [resumeFiltersAction_pending t store hp]
      have hcl : truthy (readS (setEntry (setEntry store (getFilterSliceKeys t).paused
          (.bool false)) (getFilterSliceKeys t).pending SVal.null)
          (getFilterSliceKeys t).paused) = false := by
        unfold readS
        rw [getEntry_setEntry_ne _ _ _ _ (slice_paused_ne_pending t), getEntry_setEntry_self]
        rfl
      rw [setFiltersAction_active t _ _ hcl]
      have hst : readS (setEntry (setEntry store (getFilterSliceKeys t).paused (.bool false))
          (getFilterSliceKeys t).pending SVal.null) (getFilterSliceKeys t).state
          = readS store (getFilterSliceKeys t).state := by
        unfold readS
        rw [getEntry_setEntry_ne _ _ _ _ (slice_state_ne_pending t),
          getEntry_setEntry_ne _ _ _ _ (slice_state_ne_paused t)]
      rw [hst]
    · show readS (resumeFiltersAction t store) (getFilterSliceKeys t).paused = _
      rw [resumeFiltersAction_pending t store hp]
      unfold readS
      rw [getEntry_setEntry_ne _ _ _ _ (Ne.symm (slice_state_ne_paused t)),
        getEntry_setEntry_ne _ _ _ _ (slice_paused_ne_pending t), getEntry_setEntry_self]
      rfl
    · show readS (resumeFiltersAction t store) (getFilterSliceKeys t).pending = _
      rw [resumeFiltersAction_pending t store hp]
      unfold readS
      rw [getEntry_setEntry_ne _ _ _ _ (Ne.symm (slice_state_ne_pending t)),
        getEntry_setEntry_self]
      rfl
  · intro h1 h2
    show resumeFiltersAction t store = store
    have hp : truthy (readS store (getFilterSliceKeys t).pending) = false := by
      rw [h2]
      rfl
    rw [resumeFiltersAction_nopending t store hp]
    rw [setEntry_eq_of_getEntry store _ _
      (getEntry_of_readS store _ _ (by intro hh; exact SVal.noConfusion hh) h1)]
    exact setEntry_eq_of_getEntry store _ _
      (getEntry_of_readS store _ _ (by intro hh; exact SVal.noConfusion hh) h2)
  · rfl
  · intro h
    unfold nuqsPause
    cases m with
    | mk pa pe u => simp_all
  · intro h
    rw [nuqsSetState_paused p m h]
    exact ⟨rfl, rfl⟩
  · rfl
  · intro q0 hq
    cases m with
    | mk pa pe u =>
      cases hq
      exact ⟨rfl, rfl, rfl⟩
  · intro h1 h2
    cases m with
    | mk pa pe u =>
      cases h1
      cases h2
      rfl

/-- Concrete scenario for the pause machinery: one `level` array field
with default `["error"]`. -/
def c3Schema : Schema :=
  [("level", (field.array (field.stringLiteral ["error", "warn", "info"])).default
      (Value.arr [Value.str "error"]))]

def c3Store : Store := createFilterSlice c3Schema "t" [] []

def c3Paused : Store := applyOp c3Schema "t" c3Store .pause

def c3M : NuqsAdapterModel := ⟨true, some [("level", Value.str "error")], []⟩

theorem C3_pause_resume_buffering_witness :
    readS c3Paused (getFilterSliceKeys "t").paused = .bool true
    ∧ zustandSnapshotState c3Schema "t"
        (applyOp c3Schema "t" c3Paused (.setField "level" (Value.arr [Value.str "warn"])))
      = zustandSnapshotState c3Schema "t" c3Paused
    ∧ readS (applyOp c3Schema "t" c3Paused (.setField "level" (Value.arr [Value.str "warn"])))
        (getFilterSliceKeys "t").pending
      = .obj (mergeObj (spreadObj (readS c3Paused (getFilterSliceKeys "t").pending))
          [("level", Value.arr [Value.str "warn"])])
    ∧ applyOp c3Schema "t" c3Store .resume = c3Store
    ∧ (nuqsSetState [("level", Value.arr [Value.str "warn"])] c3M).urlState = c3M.urlState
    ∧ nuqsResume ⟨false, none, []⟩ = (⟨false, none, []⟩ : NuqsAdapterModel) := by
  have h := C3_pause_resume_buffering c3Schema "t" c3Paused
    [("level", Value.arr [Value.str "warn"])] "level" (Value.arr [Value.str "warn"]) c3M
  have h0 := C3_pause_resume_buffering c3Schema "t" c3Store
    [("level", Value.arr [Value.str "warn"])] "level" (Value.arr [Value.str "warn"])
    ⟨false, none, []⟩
  obtain ⟨a1, a2, a3, a4, a5, a6, a7, n1, n2, n3, n4, n5, n6⟩ := h
  obtain ⟨b1, b2, b3, b4, b5, b6, b7, m1, m2, m3, m4, m5, m6⟩ := h0
  have hp : truthy (readS c3Paused (getFilterSliceKeys "t").paused) = true := rfl
  refine ⟨b1, ?_, ?_, b7 rfl rfl, (n3 rfl).1, m6 rfl rfl⟩
  · rw [a4]
    exact (a3 hp).2.1
  · rw [a4]
    exact (a3 hp).2.2

/-! ### Reset frame condition -/

theorem getEntry_resetPartial (σ : Schema) (fs : List String) (f : String) :
    getEntry (fs.foldl
        (fun acc f' => setEntry acc f' ((getEntry (getSchemaDefaults σ) f').getD Value.null)) []) f
      = if f ∈ fs then some ((getEntry (getSchemaDefaults σ) f).getD Value.null)
        else getEntry ([] : Obj) f :=
  getEntry_foldl_setEntry_fn (fun f' => (getEntry (getSchemaDefaults σ) f').getD Value.null) fs [] f

theorem resetPartial_nodup (σ : Schema) (fs : List String) :
    ((fs.foldl
        (fun acc f' => setEntry acc f' ((getEntry (getSchemaDefaults σ) f').getD Value.null))
        []).map Prod.fst).Nodup :=
  foldl_setEntry_nodup_keys (fun f' => (getEntry (getSchemaDefaults σ) f').getD Value.null) fs []
    (by simp)

theorem resetFiltersAction_some (σ : Schema) (t : String) (fs : List String) (store : Store) :
    resetFiltersAction σ t (some fs) store
      = setEntry store (getFilterSliceKeys t).state
          (.obj (mergeObj (spreadObj (readS store (getFilterSliceKeys t).state))
            (fs.foldl
              (fun acc f' => setEntry acc f' ((getEntry (getSchemaDefaults σ) f').getD Value.null))
              []))) := rfl

theorem resetFiltersAction_none (σ : Schema) (t : String) (store : Store) :
    resetFiltersAction σ t none store
      = setEntry store (getFilterSliceKeys t).state (.obj (getSchemaDefaults σ)) := rfl

theorem snapshot_setEntry_state (σ : Schema) (t : String) (store : Store) (o : Obj) :
    zustandSnapshotState σ t (setEntry store (getFilterSliceKeys t).state (.obj o)) = o := by
  unfold zustandSnapshotState readS
  rw [getEntry_setEntry_self]
  rfl

/-- C7: on an Active adapter, reset(fields) gives every listed schema field
its schema default and leaves every other field's current value unchanged,
and reset() with no argument gives every schema field its default (the
zustand slice replaces the state with the defaults object outright). -/
theorem C7_reset_frame (σ : Schema) (t : String) (store : Store) (cur : Obj)
    (fs : List String) (m : NuqsAdapterModel)
    (hnd : (σ.map Prod.fst).Nodup)
    (hcur : readS store (getFilterSliceKeys t).state = .obj cur)
    (hactive : m.paused = false) :
    (∀ k fb, (k, fb) ∈ σ → k ∈ fs →
      getEntry (zustandSnapshotState σ t (applyOp σ t store (.reset (some fs)))) k
        = some fb._config.defaultValue)
    ∧ (∀ q, q ∉ fs →
      getEntry (zustandSnapshotState σ t (applyOp σ t store (.reset (some fs)))) q
        = getEntry cur q)
    ∧ zustandSnapshotState σ t (applyOp σ t store (.reset none)) = getSchemaDefaults σ
    ∧ (∀ k fb, (k, fb) ∈ σ →
      getEntry (zustandSnapshotState σ t (applyOp σ t store (.reset none))) k
        = some fb._config.defaultValue)
    ∧ (∀ k fb, (k, fb) ∈ σ → k ∈ fs →
      getEntry (nuqsReset (getSchemaDefaults σ) (some fs) m).urlState k
        = some fb._config.defaultValue)
    ∧ (∀ q, q ∉ fs →
      getEntry (nuqsReset (getSchemaDefaults σ) (some fs) m).urlState q
        = getEntry m.urlState q)
    ∧ (∀ k fb, (k, fb) ∈ σ →
      getEntry (nuqsReset (getSchemaDefaults σ) none m).urlState k
        = some fb._config.defaultValue) := by
  have hsome : zustandSnapshotState σ t (applyOp σ t store (.reset (some fs)))
      = mergeObj cur (fs.foldl
          (fun acc f' => setEntry acc f' ((getEntry (getSchemaDefaults σ) f').getD Value.null))
          []) := by
    show zustandSnapshotState σ t (resetFiltersAction σ t (some fs) store) = _
    rw [resetFiltersAction_some, hcur, snapshot_setEntry_state]
    rfl
  have hnone : zustandSnapshotState σ t (applyOp σ t store (.reset none)) = getSchemaDefaults σ := by
    show zustandSnapshotState σ t (resetFiltersAction σ t none store) = _
    rw [resetFiltersAction_none, snapshot_setEntry_state]
  have hnq : (nuqsReset (getSchemaDefaults σ) (some fs) m).urlState
      = mergeObj m.urlState (fs.foldl
          (fun acc f' => setEntry acc f' ((getEntry (getSchemaDefaults σ) f').getD Value.null))
          []) := by
    show (nuqsSetState (fs.foldl
        (fun acc f' => setEntry acc f' ((getEntry (getSchemaDefaults σ) f').getD Value.null))
        []) m).urlState = _
    rw [nuqsSetState_active _ m hactive]
  have hnqAll : (nuqsReset (getSchemaDefaults σ) none m).urlState
      = mergeObj m.urlState (getSchemaDefaults σ) := by
    show (nuqsSetState (getSchemaDefaults σ) m).urlState = _
    rw [nuqsSetState_active _ m hactive]
  have hdnodup : ((getSchemaDefaults σ).map Prod.fst).Nodup := by
    rw [getSchemaDefaults_map_fst]
    exact hnd
  refine ⟨?_, ?_, hnone, ?_, ?_, ?_, ?_⟩
  · intro k fb hmem hk
    rw [hsome, getEntry_mergeObj_nodup cur _ k (resetPartial_nodup σ fs),
      getEntry_resetPartial σ fs k, if_pos hk, getEntry_getSchemaDefaults σ k fb hmem hnd]
    rfl
  · intro q hq
    rw [hsome, getEntry_mergeObj_nodup cur _ q (resetPartial_nodup σ fs),
      getEntry_resetPartial σ fs q, if_neg hq]
    rfl
  · intro k fb hmem
    rw [hnone]
    exact getEntry_getSchemaDefaults σ k fb hmem hnd
  · intro k fb hmem hk
    rw [hnq, getEntry_mergeObj_nodup _ _ k (resetPartial_nodup σ fs),
      getEntry_resetPartial σ fs k, if_pos hk, getEntry_getSchemaDefaults σ k fb hmem hnd]
    rfl
  · intro q hq
    rw [hnq, getEntry_mergeObj_nodup _ _ q (resetPartial_nodup σ fs),
      getEntry_resetPartial σ fs q, if_neg hq]
    rfl
  · intro k fb hmem
    rw [hnqAll, getEntry_mergeObj_nodup _ _ k hdnodup,
      getEntry_getSchemaDefaults σ k fb hmem hnd]
    rfl

def c7Schema : Schema :=
  [("host", field.string),
   ("level", (field.array (field.stringLiteral ["error", "warn"])).default
      (Value.arr [Value.str "error"]))]

def c7Cur : Obj := [("host", Value.str "h1"), ("level", Value.arr [Value.str "warn"])]

def c7Store : Store := [((getFilterSliceKeys "t").state, SVal.obj c7Cur)]

def c7M : NuqsAdapterModel := ⟨false, none, c7Cur⟩

theorem C7_reset_frame_witness :
    getEntry (zustandSnapshotState c7Schema "t"
        (applyOp c7Schema "t" c7Store (.reset (some ["level"])))) "level"
      = some ((field.array (field.stringLiteral ["error", "warn"])).default
          (Value.arr [Value.str "error"]))._config.defaultValue
    ∧ getEntry (zustandSnapshotState c7Schema "t"
        (applyOp c7Schema "t" c7Store (.reset (some ["level"])))) "host"
      = getEntry c7Cur "host"
    ∧ zustandSnapshotState c7Schema "t" (applyOp c7Schema "t" c7Store (.reset none))
      = getSchemaDefaults c7Schema
    ∧ getEntry (nuqsReset (getSchemaDefaults c7Schema) (some ["level"]) c7M).urlState "host"
      = getEntry c7M.urlState "host" := by
  have h := C7_reset_frame c7Schema "t" c7Store c7Cur ["level"] c7M (by decide) rfl rfl
  exact ⟨h.1 "level" _ (List.mem_cons_of_mem _ (List.mem_cons_self _ _)) (by decide),
    h.2.1 "host" (by decide), h.2.2.1, h.2.2.2.2.2.1 "host" (by decide)⟩
